import Mathlib

/-!
Shallow embedding of the `autokernel` configuration engine (the Rust sources
under `src/`): the tristate domain, the symbol model, the dependency
expression algebra with its evaluator, the assignment validator inside
`Symbol::set_value`, the dependency satisfier, the transaction journal, and
the `.config`-style script frontend.  Machine integers (`u64`) are modelled
as `Nat` with explicit `< 2 ^ 64` range checks at the points where the Rust
code parses or bounds them.  Rust panics (out-of-bounds slicing, `unwrap`)
and non-termination are modelled by `Option`, with `none` meaning "the call
does not return normally".  Hash maps are modelled as association lists in
insertion order; at the one point where iteration order is observable in a
claim (the per-round emission order of the satisfier) the embedding takes an
explicit reordering function `pick` so that theorems can quantify over all
iteration orders a hash map may exhibit.
-/

set_option autoImplicit false
set_option linter.unusedVariables false
set_option linter.unnecessarySimpa false

namespace Autokernel

/-- Tristate value domain from `src/bridge/types.rs`: `No < Mod < Yes`. -/
inductive Tristate : Type
  | No
  | Mod
  | Yes
deriving DecidableEq, Repr, Inhabited

/-- Numeric rank of a tristate, used to transport the linear order. -/
def Tristate.toNat : Tristate → Nat
  | .No => 0
  | .Mod => 1
  | .Yes => 2

instance : LinearOrder Tristate :=
  LinearOrder.lift' Tristate.toNat (by intro a b h; cases a <;> cases b <;> simp_all [Tristate.toNat])

/-- `Tristate::invert` from `src/bridge/types.rs`. -/
def Tristate.invert : Tristate → Tristate
  | .No => .Yes
  | .Mod => .Mod
  | .Yes => .No

/-- `From<bool> for Tristate` from `src/bridge/types.rs`. -/
def Tristate.ofBool : Bool → Tristate
  | true => .Yes
  | false => .No

/-- `FromStr for Tristate` from `src/bridge/types.rs`: `n | m | y`. -/
def Tristate.parse? (s : String) : Option Tristate :=
  if s = "n" then some .No
  else if s = "m" then some .Mod
  else if s = "y" then some .Yes
  else none

/-- `Display for Tristate` from `src/bridge/types.rs`. -/
def Tristate.toStr : Tristate → String
  | .No => "n"
  | .Mod => "m"
  | .Yes => "y"

/-- `SymbolType` from `src/bridge/types.rs`. -/
inductive SymbolType : Type
  | Unknown
  | Boolean
  | Tristate
  | Int
  | Hex
  | String
deriving DecidableEq, Repr, Inhabited

/-- `SymbolValue` from `src/bridge/types.rs`.  `u64` payloads are `Nat`. -/
inductive SymbolValue : Type
  | Boolean (b : Bool)
  | Tristate (t : Tristate)
  | Int (v : Nat)
  | Hex (v : Nat)
  | Number (v : Nat)
  | String (s : String)
  | Auto (s : String)
deriving DecidableEq, Repr, Inhabited

/-- Expression terminals from `src/bridge/expr.rs`.  The Rust code stores raw
`*mut CSymbol` pointers; the embedding replaces pointer identity by the index
of the symbol in the schema's symbol list. -/
inductive Terminal : Type
  | Eq (a b : Nat)
  | Neq (a b : Nat)
  | Lth (a b : Nat)
  | Leq (a b : Nat)
  | Gth (a b : Nat)
  | Geq (a b : Nat)
  | Symbol (s : Nat)
deriving DecidableEq, Repr, Inhabited

/-- `Expr` from `src/bridge/expr.rs`. -/
inductive Expr : Type
  | Const (b : Bool)
  | Terminal (t : Terminal)
  | And (a b : Expr)
  | Or (a b : Expr)
  | Not (a : Expr)
deriving DecidableEq, Repr, Inhabited

/-- `EvalError` from `src/bridge/expr.rs`. -/
inductive EvalError : Type
  | InvalidTerminal (terminal : Terminal)
  | InvalidIntegerSymbol (symbol : String)
deriving DecidableEq, Repr

/-- One schema symbol: the fields of `CSymbol` from `src/bridge/types.rs`
that the engine reads, together with the per-symbol data the bridge vtable
exposes (`prompt_count`, `int_min`, `int_max`, the deps-with-prompts
expression, choice children).  `tri` is `current_value.tri`, `str_value` is
what `c_sym_get_string_value` returns, `rev_dep_tri` is
`reverse_dependencies.tri`, `vis_expr` is the converted
`c_sym_direct_deps_with_prompts` expression (`none` models a null
expression) and `rev_expr` the converted `reverse_dependencies` expression. -/
structure Sym : Type where
  name : Option String
  symbol_type : SymbolType
  is_const : Bool
  is_choice : Bool
  prompt_count : Nat
  tri : Tristate
  str_value : String
  visible : Tristate
  rev_dep_tri : Tristate
  vis_expr : Option Expr
  rev_expr : Option Expr
  int_min : Nat
  int_max : Nat
  choice_children : List Nat
deriving DecidableEq, Repr, Inhabited

/-- `Ambiguity` from `src/bridge/satisfier.rs`. -/
structure Ambiguity : Type where
  symbol : String
  clauses : List String
deriving DecidableEq, Repr

/-- `SolveError` from `src/bridge/satisfier.rs`. -/
inductive SolveError : Type
  | Unsatisfiable
  | ComplexNot
  | UnsupportedConstituents
  | AmbiguousComparison
  | InvalidSymbol
  | InvalidExpression
  | RequiresModForBoolean (symbol : String)
  | ConflictingAssignment (symbol : String) (a b : Tristate)
  | AmbiguousSolution (symbols : List Ambiguity)
deriving DecidableEq, Repr

/-- `SymbolGetError` from `src/bridge/symbol.rs`. -/
inductive SymbolGetError : Type
  | UnknownType
  | InvalidInt
  | InvalidHex
deriving DecidableEq, Repr

deriving instance DecidableEq for Except

/-- `SymbolSetError` from `src/bridge/symbol.rs`, payloads included. -/
inductive SymbolSetError : Type
  | UnknownType
  | IsConst
  | IsChoice
  | InvalidInt
  | InvalidHex
  | InvalidTristate
  | InvalidBoolean
  | SatisfyFailed (error : SolveError)
  | UnmetDependencies (min max : Tristate) (deps : List String)
      (satisfying_configuration : Except SolveError (List (String × Tristate)))
  | RequiredByOther (min max : Tristate) (rev_deps : List String)
  | CannotSetManually
  | MustBeSelected (rev_deps : List String)
  | InvalidVisibility (min max : Tristate)
  | ModulesNotEnabled
  | OutOfRange (min max : Nat)
  | InvalidValue
  | AssignmentFailed
deriving DecidableEq, Repr

/-- `Transaction` from `src/bridge/transaction.rs`. -/
structure Transaction : Type where
  symbol : String
  file : String
  line : Nat
  traceback : Option String
  value : SymbolValue
  value_before : SymbolValue
  value_after : SymbolValue
  error : Option SymbolSetError
deriving DecidableEq, Repr

/-- The schema: the `Bridge`'s `symbols` vector, index = symbol id.  The
untracked engine operations read and write only this list (the journal lives
behind a `RefCell` and is touched only by the tracked operations below). -/
abbrev Schema := List Sym

/-- Dereference a symbol id.  Rust dereferences a raw pointer which is always
valid for ids produced by the bridge; out-of-range ids return a default
symbol and never arise in the theorems below. -/
def symAt (st : Schema) (i : Nat) : Sym :=
  st.getD i default

/-- `Bridge::symbol`: the `name_to_symbol` index from `src/bridge/mod.rs`.
It is built by inserting symbols in schema order, skipping `Unknown`-typed
symbols; a later symbol with the same name overwrites an earlier one, hence
the fold keeping the last match. -/
def symbolIdx (st : Schema) (n : String) : Option Nat :=
  (List.range st.length).foldl
    (fun acc i =>
      if (symAt st i).symbol_type ≠ SymbolType.Unknown ∧ (symAt st i).name = some n then some i
      else acc)
    none

/-- Digit value of a decimal character, as in Rust's `u64::from_str`. -/
def decDigit? (c : Char) : Option Nat :=
  if c.isDigit then some (c.toNat - '0'.toNat) else none

/-- Digit value of a hexadecimal character, as in `u64::from_str_radix(_, 16)`. -/
def hexDigit? (c : Char) : Option Nat :=
  if c.isDigit then some (c.toNat - '0'.toNat)
  else if 'a' ≤ c ∧ c ≤ 'f' then some (c.toNat - 'a'.toNat + 10)
  else if 'A' ≤ c ∧ c ≤ 'F' then some (c.toNat - 'A'.toNat + 10)
  else none

/-- Rust's `u64` string parsing (`from_str` / `from_str_radix`): an optional
leading `+`, then at least one digit, rejecting values that overflow a
`u64`. -/
def parseRadixChars (digit? : Char → Option Nat) (radix : Nat) (cs : List Char) : Option Nat :=
  let cs := match cs with
    | '+' :: rest => rest
    | other => other
  match cs with
  | [] => none
  | _ =>
    (cs.foldl (fun acc c => acc.bind fun n => (digit? c).map fun d => n * radix + d) (some 0)).bind
      fun n => if n < 2 ^ 64 then some n else none

/-- `u64` rendered as Rust's `{:#x}` format: `0x` followed by lowercase hex. -/
def hexFormat (n : Nat) : String :=
  "0x" ++ String.mk (Nat.toDigits 16 n)

/-- Symbol types that compare as tristates in `Expr::eval`
(`is_tri_compatible`). -/
def isTriType : SymbolType → Bool
  | .Tristate => true
  | .Boolean => true
  | _ => false

/-- Symbol types that compare as integers in `Expr::eval`
(`is_int_compatible`). -/
def isIntType : SymbolType → Bool
  | .Int => true
  | .Hex => true
  | .Unknown => true
  | _ => false

/-- `is_tri_compatible!(a, b)` from `Expr::eval`. -/
def triCompat (st : Schema) (a b : Nat) : Bool :=
  isTriType (symAt st a).symbol_type && isTriType (symAt st b).symbol_type

/-- `is_int_compatible!(a, b)` from `Expr::eval`.  The Rust macro tests the
symbol type of `$a` in both conjuncts, so only the left symbol's type is
actually checked; the embedding reproduces that. -/
def intCompat (st : Schema) (a b : Nat) : Bool :=
  isIntType (symAt st a).symbol_type && isIntType (symAt st a).symbol_type

/-- `CSymbol::get_int_value` from `src/bridge/types.rs`: strings of length at
least two starting with `0x` parse as hex of the remainder, anything else as
decimal; only `Int`/`Hex`/`Unknown` symbols carry integer values. -/
def getIntValue (s : Sym) : Option Nat :=
  match s.symbol_type with
  | .Int | .Hex | .Unknown =>
    match s.str_value.data with
    | '0' :: 'x' :: rest => parseRadixChars hexDigit? 16 rest
    | other => parseRadixChars decDigit? 10 other
  | _ => none

/-- `get_int!` from `Expr::eval`: a failed integer read becomes
`InvalidIntegerSymbol` carrying `name().unwrap()`, which panics (`none`) for
an unnamed symbol. -/
def getIntE (st : Schema) (i : Nat) : Option (Except EvalError Nat) :=
  match getIntValue (symAt st i) with
  | some v => some (.ok v)
  | none =>
    match (symAt st i).name with
    | some n => some (.error (.InvalidIntegerSymbol n))
    | none => none

/-- Evaluation of a comparison terminal: the guarded arms of `Expr::eval`
for `Eq`/`Neq`/`Lth`/`Leq`/`Gth`/`Geq`.  `cmpTri`/`cmpInt` are the concrete
comparison used in the matching arm. -/
def evalCmp (st : Schema) (t : Terminal) (a b : Nat)
    (cmpTri : Tristate → Tristate → Bool) (cmpInt : Nat → Nat → Bool) :
    Option (Except EvalError Tristate) :=
  if triCompat st a b then
    some (.ok (Tristate.ofBool (cmpTri (symAt st a).tri (symAt st b).tri)))
  else if intCompat st a b then
    match getIntE st a with
    | none => none
    | some (.error e) => some (.error e)
    | some (.ok x) =>
      match getIntE st b with
      | none => none
      | some (.error e) => some (.error e)
      | some (.ok y) => some (.ok (Tristate.ofBool (cmpInt x y)))
  else
    some (.error (.InvalidTerminal t))

/-- The terminal arms of `Expr::eval` from `src/bridge/expr.rs`. -/
def evalTerminal (st : Schema) (t : Terminal) : Option (Except EvalError Tristate) :=
  match t with
  | .Eq a b => evalCmp st t a b (fun x y => x = y) (fun x y => x = y)
  | .Neq a b => evalCmp st t a b (fun x y => x ≠ y) (fun x y => x ≠ y)
  | .Lth a b => evalCmp st t a b (fun x y => x < y) (fun x y => x < y)
  | .Leq a b => evalCmp st t a b (fun x y => x ≤ y) (fun x y => x ≤ y)
  | .Gth a b => evalCmp st t a b (fun x y => y < x) (fun x y => y < x)
  | .Geq a b => evalCmp st t a b (fun x y => y ≤ x) (fun x y => y ≤ x)
  | .Symbol s => some (.ok (symAt st s).tri)

/-- `Expr::eval` from `src/bridge/expr.rs`.  `And` is pointwise minimum
(`if a < b { a } else { b }`), `Or` pointwise maximum, `Not` is `invert`;
errors propagate left to right; `none` models a panic inside evaluation. -/
def evalO (st : Schema) : Expr → Option (Except EvalError Tristate)
  | .Const b => some (.ok (Tristate.ofBool b))
  | .And a b =>
    match evalO st a with
    | none => none
    | some (.error e) => some (.error e)
    | some (.ok x) =>
      match evalO st b with
      | none => none
      | some (.error e) => some (.error e)
      | some (.ok y) => some (.ok (if x < y then x else y))
  | .Or a b =>
    match evalO st a with
    | none => none
    | some (.error e) => some (.error e)
    | some (.ok x) =>
      match evalO st b with
      | none => none
      | some (.error e) => some (.error e)
      | some (.ok y) => some (.ok (if x > y then x else y))
  | .Not a =>
    match evalO st a with
    | none => none
    | some (.error e) => some (.error e)
    | some (.ok x) => some (.ok x.invert)
  | .Terminal t => evalTerminal st t

/-- `Expr::or_clauses` from `src/bridge/expr.rs`: left-to-right flattening of
the top-level `Or` structure. -/
def Expr.or_clauses : Expr → List Expr
  | .Or a b => a.or_clauses ++ b.or_clauses
  | e => [e]

/-- `Expr::and_clauses` from `src/bridge/expr.rs`. -/
def Expr.and_clauses : Expr → List Expr
  | .And a b => a.and_clauses ++ b.and_clauses
  | e => [e]

/-- `Symbol::get_value` from `src/bridge/symbol.rs`.  The `Hex` arm slices
`get_string_value()[2..]`, which panics (`none`) when the stored string is
shorter than two characters. -/
def getValue (st : Schema) (i : Nat) : Option (Except SymbolGetError SymbolValue) :=
  match (symAt st i).symbol_type with
  | .Unknown => some (.error .UnknownType)
  | .Boolean => some (.ok (.Boolean ((symAt st i).tri = .Yes)))
  | .Tristate => some (.ok (.Tristate (symAt st i).tri))
  | .Int =>
    match parseRadixChars decDigit? 10 (symAt st i).str_value.data with
    | some v => some (.ok (.Int v))
    | none => some (.error .InvalidInt)
  | .Hex =>
    match (symAt st i).str_value.data with
    | _ :: _ :: rest =>
      match parseRadixChars hexDigit? 16 rest with
      | some v => some (.ok (.Hex v))
      | none => some (.error .InvalidHex)
    | _ => none
  | .String => some (.ok (.String (symAt st i).str_value))

/-- `Display for Symbol` from `src/bridge/symbol.rs`, with terminal colors
disabled (the `colored` crate renders plainly when not writing to a tty): a
named symbol renders as its name followed by a `=value` indicator, an
unnamed choice container as `<choice>[...]` over its children, anything else
as `<??>`.  The fuel bounds the recursion into choice children; an exhausted
fuel models the non-returning recursion a cyclic choice chain would cause. -/
def displaySymbolD (st : Schema) : Nat → Nat → Option String
  | 0, _ => none
  | fuel + 1, i =>
    match (symAt st i).name with
    | some n =>
      match getValue st i with
      | none => none
      | some r =>
        let ind : String :=
          match r with
          | .ok (.Boolean v) => "=" ++ (Tristate.ofBool v).toStr
          | .ok (.Tristate t) => "=" ++ t.toStr
          | .ok (.Int v) => "=" ++ Nat.repr v
          | .ok (.Hex v) => "=" ++ String.mk (Nat.toDigits 16 v)
          | .ok (.String s) => "=\x22" ++ s ++ "\x22"
          | _ => ""
        some (n ++ ind)
    | none =>
      if (symAt st i).is_choice then
        match ((symAt st i).choice_children.mapM (displaySymbolD st fuel)) with
        | some parts => some ("<choice>[" ++ String.intercalate ", " parts ++ "]")
        | none => none
      else
        some "<??>"

/-- `Display for TerminalDisplay` from `src/bridge/expr.rs`. -/
def displayTerminalD (st : Schema) (fuel : Nat) : Terminal → Option String
  | .Eq a b => do
    let x ← displaySymbolD st fuel a
    let y ← displaySymbolD st fuel b
    pure ("(" ++ x ++ " == " ++ y ++ ")")
  | .Neq a b => do
    let x ← displaySymbolD st fuel a
    let y ← displaySymbolD st fuel b
    pure ("(" ++ x ++ " != " ++ y ++ ")")
  | .Lth a b => do
    let x ← displaySymbolD st fuel a
    let y ← displaySymbolD st fuel b
    pure ("(" ++ x ++ " < " ++ y ++ ")")
  | .Leq a b => do
    let x ← displaySymbolD st fuel a
    let y ← displaySymbolD st fuel b
    pure ("(" ++ x ++ " <= " ++ y ++ ")")
  | .Gth a b => do
    let x ← displaySymbolD st fuel a
    let y ← displaySymbolD st fuel b
    pure ("(" ++ x ++ " > " ++ y ++ ")")
  | .Geq a b => do
    let x ← displaySymbolD st fuel a
    let y ← displaySymbolD st fuel b
    pure ("(" ++ x ++ " >= " ++ y ++ ")")
  | .Symbol e => displaySymbolD st fuel e

/-- Parenthesisation context of `display_expr` from `src/bridge/expr.rs`. -/
inductive ParentKind : Type
  | And
  | Or
  | Other
deriving DecidableEq, Repr

/-- `display_expr` from `src/bridge/expr.rs`: elides parentheses when
nesting within the same `And`/`Or` operator and inserts them at operator
boundaries. -/
def displayExprD (st : Schema) (fuel : Nat) : ParentKind → Expr → Option String
  | .And, .And l r => do
    let x ← displayExprD st fuel .And l
    let y ← displayExprD st fuel .And r
    pure (x ++ " && " ++ y)
  | .Or, .Or l r => do
    let x ← displayExprD st fuel .Or l
    let y ← displayExprD st fuel .Or r
    pure (x ++ " || " ++ y)
  | _, .And l r => do
    let x ← displayExprD st fuel .And l
    let y ← displayExprD st fuel .And r
    pure ("(" ++ x ++ " && " ++ y ++ ")")
  | _, .Or l r => do
    let x ← displayExprD st fuel .Or l
    let y ← displayExprD st fuel .Or r
    pure ("(" ++ x ++ " || " ++ y ++ ")")
  | _, .Not e => do
    let x ← displayExprD st fuel .Other e
    pure ("!" ++ x)
  | _, .Const b => some (if b then "true" else "false")
  | _, .Terminal t => displayTerminalD st fuel t

/-- `Expr::display(bridge).to_string()` as used for diagnostics: top-level
context, with recursion fuel ample for any acyclic choice nesting. -/
def displayExpr (st : Schema) (e : Expr) : Option String :=
  displayExprD st (st.length + 1) .Other e

/-- Assignment maps of the satisfier (`type Assignments = HashMap<String,
Tristate>` in `src/bridge/satisfier.rs`), modelled as association lists in
insertion order with unique keys. -/
abbrev Assignments := List (String × Tristate)

/-- Hash-map key lookup on the association-list model. -/
def lookupA (l : Assignments) (k : String) : Option Tristate :=
  (l.find? (fun p => p.1 = k)).map (·.2)

/-- The conflicting keys scanned by `merge` in `src/bridge/satisfier.rs`:
keys present in both maps with different values, paired with both values
(`va` from the first map, `vb` from the second).  The Rust code iterates a
`HashSet` intersection in unspecified order; the model scans in the first
map's insertion order, which is one of the orders the hash set may produce
(for at most one conflict every order agrees). -/
def mergeConflicts (a b : Assignments) : List (String × Tristate × Tristate) :=
  a.filterMap (fun p =>
    match lookupA b p.1 with
    | some w => if p.2 ≠ w then some (p.1, p.2, w) else none
    | none => none)

/-- `merge` from `src/bridge/satisfier.rs`: fail with
`ConflictingAssignment` on the first conflicting key, otherwise extend the
first map with the second (`a.extend(b.drain())`); with no conflict the
overlap agrees, so keeping the first map's bindings and appending the new
keys of `b` is observationally the extend. -/
def mergeFun (a b : Assignments) : Except SolveError Assignments :=
  match mergeConflicts a b with
  | c :: _ => .error (.ConflictingAssignment c.1 c.2.1 c.2.2)
  | [] => .ok (a ++ b.filter (fun p => (lookupA a p.1).isNone))

/-- `SolverConfig` from `src/bridge/satisfier.rs` (the boxed solver field is
dropped: `SimpleSolver` is the only solver and the only one ever used). -/
structure SolverConfig : Type where
  desired_value : Tristate
  recursive : Bool
deriving DecidableEq, Repr

/-- `SimpleSolver::satisfy_eq` from `src/bridge/satisfier.rs`. -/
def satisfy_eq (st : Schema) (a : Nat) (b : Tristate) : Except SolveError Assignments :=
  match (symAt st a).name with
  | none => .error .InvalidSymbol
  | some name =>
    if b = .Mod ∧ (symAt st a).symbol_type ≠ .Tristate then
      .error (.RequiresModForBoolean name)
    else
      .ok [(name, b)]

/-- `SimpleSolver::satisfy_neq` from `src/bridge/satisfier.rs`: the emitted
value is `desired` for `b = No`, `Yes` for `b = Mod`, `Mod` for `b = Yes`. -/
def satisfy_neq (st : Schema) (a : Nat) (b : Tristate) (desired_value : Tristate) :
    Except SolveError Assignments :=
  match (symAt st a).name with
  | none => .error .InvalidSymbol
  | some name =>
    let value : Tristate :=
      match b with
      | .No => desired_value
      | .Mod => .Yes
      | .Yes => .Mod
    if value = .Mod ∧ (symAt st a).symbol_type ≠ .Tristate then
      .error (.RequiresModForBoolean name)
    else
      .ok [(name, value)]

/-- `Solver::satisfy` for `SimpleSolver` from `src/bridge/satisfier.rs`.
Any evaluation error becomes `UnsupportedConstituents` before the structural
walk; a high-enough evaluation short-circuits to the empty assignment. -/
def solverSatisfy (st : Schema) : Expr → Tristate → Option (Except SolveError Assignments)
  | e, desired_value =>
    match evalO st e with
    | none => none
    | some (.error _) => some (.error .UnsupportedConstituents)
    | some (.ok t) =>
      if desired_value ≤ t then some (.ok [])
      else
        match e with
        | .And a b =>
          match solverSatisfy st a desired_value with
          | none => none
          | some (.error e1) => some (.error e1)
          | some (.ok ra) =>
            match solverSatisfy st b desired_value with
            | none => none
            | some (.error e2) => some (.error e2)
            | some (.ok rb) => some (mergeFun ra rb)
        | .Or a b =>
          match solverSatisfy st a desired_value with
          | none => none
          | some (.ok ra) => some (.ok ra)
          | some (.error _) => solverSatisfy st b desired_value
        | .Const false => some (.error .Unsatisfiable)
        | .Const true => some (.ok [])
        | .Not a =>
          match a with
          | .Terminal (.Eq x y) =>
            if (symAt st x).is_const then some (satisfy_neq st y (symAt st x).tri desired_value)
            else if (symAt st y).is_const then some (satisfy_neq st x (symAt st y).tri desired_value)
            else some (.error .AmbiguousComparison)
          | .Terminal (.Neq x y) =>
            if (symAt st x).is_const then some (satisfy_eq st y (symAt st x).tri)
            else if (symAt st y).is_const then some (satisfy_eq st x (symAt st y).tri)
            else some (.error .AmbiguousComparison)
          | .Terminal (.Symbol s) => some (satisfy_eq st s .No)
          | .Terminal _ => some (.error .UnsupportedConstituents)
          | _ => some (.error .ComplexNot)
        | .Terminal (.Eq x y) =>
          if (symAt st x).is_const then some (satisfy_eq st y (symAt st x).tri)
          else if (symAt st y).is_const then some (satisfy_eq st x (symAt st y).tri)
          else some (.error .AmbiguousComparison)
        | .Terminal (.Neq x y) =>
          if (symAt st x).is_const then some (satisfy_neq st y (symAt st x).tri desired_value)
          else if (symAt st y).is_const then some (satisfy_neq st x (symAt st y).tri desired_value)
          else some (.error .AmbiguousComparison)
        | .Terminal (.Symbol s) =>
          let desired2 : Tristate :=
            if (symAt st s).symbol_type = .Boolean then .Yes else desired_value
          some (satisfy_neq st s .No desired2)
        | .Terminal _ => some (.error .UnsupportedConstituents)

/-- The assignment filter in `satisfy` (`src/bridge/satisfier.rs`, the
`retain` call): keep only assignments to symbols with a prompt.  Each key is
looked up with `bridge.symbol(k).unwrap()`, which panics (`none`) when the
key is not in the name index. -/
def retainPromptable (st : Schema) : Assignments → Option Assignments
  | [] => some []
  | p :: rest =>
    match symbolIdx st p.1 with
    | none => none
    | some j =>
      match retainPromptable st rest with
      | none => none
      | some kept =>
        some (if (symAt st j).prompt_count > 0 then p :: kept else kept)

/-- The effective constraint expression of one queue symbol in `satisfy`
(`src/bridge/satisfier.rs` lines 79-121): the visibility expression, ANDed
for a promptless symbol with the chosen reverse-dependency disjunct — no
clauses or several clauses continue with `Const(true)`, several clauses
additionally record an `Ambiguity` (display panics propagate as `none`). -/
def phase1Expr (st : Schema) (sym : String) (id : Nat) (ambs : List Ambiguity) :
    Option (Expr × List Ambiguity) :=
  let visE := (symAt st id).vis_expr.getD (.Const true)
  if (symAt st id).prompt_count = 0 then
    match (symAt st id).rev_expr with
    | none => some (.And visE (.Const true), ambs)
    | some re =>
      match re.or_clauses with
      | [] => some (.And visE (.Const true), ambs)
      | [c] => some (.And visE c, ambs)
      | cs =>
        match cs.mapM (displayExpr st) with
        | none => none
        | some ds => some (.And visE (.Const true), ambs ++ [⟨sym, ds⟩])
  else some (visE, ambs)

/-- The work-queue loop of `satisfy` from `src/bridge/satisfier.rs` (lines
72-141): pop symbols from the front of the queue, skip symbols already done,
build the effective constraint expression (visibility, ANDed for promptless
symbols with the chosen reverse-dependency disjunct, recording an
`Ambiguity` when there are two or more disjuncts), run the solver, record
the non-`No` targets as the symbol's dependency set, strip unassignable
targets from the emitted map, and in recursive mode enqueue the targets.
Fuel bounds the loop; exhausted fuel is `none`.  Expression conversion
cannot fail in the model (expressions are stored converted), so the
`InvalidExpression` mappings of the Rust code are unreachable here. -/
def phase1 (st : Schema) (cfg : SolverConfig) :
    Nat → List String → List String → List Ambiguity → List (String × Assignments) →
    List (String × List String) →
    Option (Except SolveError (List Ambiguity × List (String × Assignments) × List (String × List String)))
  | 0, _, _, _, _, _ => none
  | _ + 1, [], _, ambs, solved, deps => some (.ok (ambs, solved, deps))
  | fuel + 1, sym :: queue, done, ambs, solved, deps =>
    if sym ∈ done then phase1 st cfg fuel queue done ambs solved deps
    else
      match symbolIdx st sym with
      | none => some (.error .InvalidSymbol)
      | some id =>
        match phase1Expr st sym id ambs with
        | none => none
        | some (expr, ambs2) =>
          match solverSatisfy st expr cfg.desired_value with
          | none => none
          | some (.error e) => some (.error e)
          | some (.ok newAssignments) =>
            let dependsOn := (newAssignments.filter (fun p => p.2 ≠ .No)).map (·.1)
            match retainPromptable st newAssignments with
            | none => none
            | some kept =>
              if cfg.recursive then
                phase1 st cfg fuel (queue ++ dependsOn) (sym :: done) ambs2
                  (solved ++ [(sym, kept)]) (deps ++ [(sym, dependsOn)])
              else
                some (.ok (ambs2, solved ++ [(sym, kept)], deps ++ [(sym, [])]))

/-- Emit the entries of one drained assignment map, skipping symbols already
assigned (`already_assigned_symbols` in `src/bridge/satisfier.rs`). -/
def emitEntries : List String → List (String × Tristate) → Assignments →
    List String × List (String × Tristate)
  | already, acc, [] => (already, acc)
  | already, acc, e :: rest =>
    if e.1 ∈ already then emitEntries already acc rest
    else emitEntries (e.1 :: already) (acc ++ [e]) rest

/-- `solved_symbols.get_mut(fs).unwrap()`: the per-symbol assignment map.
The keys drained are always keys of `solved` in the runs the theorems
quantify over; a missing key yields the empty map. -/
def lookupSolved (solved : List (String × Assignments)) (k : String) : Assignments :=
  ((solved.find? (fun p => p.1 = k)).map (·.2)).getD []

/-- Drain the maps of this round's fulfilled symbols in the given order. -/
def emitRound (solved : List (String × Assignments)) :
    List String → List String → List (String × Tristate) →
    List String × List (String × Tristate)
  | [], already, acc => (already, acc)
  | fs :: rest, already, acc =>
    let res := emitEntries already acc (lookupSolved solved fs)
    emitRound solved rest res.1 res.2

/-- The topological-emission loop of `satisfy` from `src/bridge/satisfier.rs`
(lines 151-175): repeatedly split off the symbols whose dependency list is
empty, drain their assignment maps, and remove them from the remaining
dependency lists.  `pick` gives the iteration order of the per-round
`HashMap` of fulfilled symbols (Rust iterates it in unspecified order).
When no symbol is fulfilled but some remain the Rust loop never terminates;
here the fuel runs out and the result is `none`. -/
def phase2 (solved : List (String × Assignments)) (pick : List String → List String) :
    Nat → List (String × List String) → List String → List (String × Tristate) →
    Option (List (String × Tristate))
  | 0, _, _, _ => none
  | fuel + 1, deps, already, acc =>
    if deps.isEmpty then some acc
    else
      let fulfilled := deps.filter (fun p => p.2.isEmpty)
      let remaining := deps.filter (fun p => ¬ p.2.isEmpty)
      let names := fulfilled.map (·.1)
      let res := emitRound solved (pick names) already acc
      let remaining2 := remaining.map (fun p => (p.1, p.2.filter (fun s => ¬ names.contains s)))
      phase2 solved pick fuel remaining2 res.1 res.2

/-- Result of `satisfy` together with the recorded dependency sets and
ambiguities (internal state exposed so that theorems can speak about the
dependency order; `satisfyFn` below projects the assignment list). -/
structure SatisfyOut : Type where
  assignments : List (String × Tristate)
  deps : List (String × List String)
  ambiguities : List Ambiguity
deriving DecidableEq, Repr

/-- The merge of all per-symbol maps in `satisfy` (lines 144-147), detecting
cross-symbol conflicts.  Rust iterates `solved_symbols.values()` in
unspecified order; the model folds in insertion order (the order only
selects which conflict is reported). -/
def mergeAll (l : List Assignments) : Except SolveError Assignments :=
  l.foldlM (fun acc m => mergeFun acc m) []

/-- `satisfy` from `src/bridge/satisfier.rs`: queue walk, conflict check,
topological emission, then the ambiguity check. -/
def satisfyDebug (fuel : Nat) (pick : List String → List String) (st : Schema)
    (symbol : String) (cfg : SolverConfig) : Option (Except SolveError SatisfyOut) :=
  match phase1 st cfg fuel [symbol] [] [] [] [] with
  | none => none
  | some (.error e) => some (.error e)
  | some (.ok (ambs, solved, deps)) =>
    match mergeAll (solved.map (·.2)) with
    | .error e => some (.error e)
    | .ok _ =>
      match phase2 solved pick fuel deps [] [] with
      | none => none
      | some assignments =>
        if ambs.isEmpty then some (.ok ⟨assignments, deps, ambs⟩)
        else some (.error (.AmbiguousSolution ambs))

/-- `satisfy` as called by the rest of the engine: one fixed (insertion)
iteration order, assignments only. -/
def satisfyFn (fuel : Nat) (st : Schema) (symbol : String) (cfg : SolverConfig) :
    Option (Except SolveError (List (String × Tristate))) :=
  (satisfyDebug fuel (fun l => l) st symbol cfg).map (fun r => r.map (·.assignments))

/-- `Symbol::satisfy` from `src/bridge/symbol.rs`: an unnamed symbol is
`InvalidSymbol`, otherwise run the satisfier on the symbol's name. -/
def symbolSatisfy (fuel : Nat) (st : Schema) (i : Nat) (cfg : SolverConfig) :
    Option (Except SolveError (List (String × Tristate))) :=
  match (symAt st i).name with
  | none => some (.error .InvalidSymbol)
  | some n => satisfyFn fuel st n cfg

/-- Replace symbol `i`'s record. -/
def setSym (st : Schema) (i : Nat) (s : Sym) : Schema :=
  st.set i s

/-- Modelled from the spec: `c_sym_set_tristate_value` (the native bridge's
tristate setter, `src/bridge/cbridge` is not under `src/`).  Per the spec's
bridge contract it stores the value without validating against visibility;
the model always accepts. -/
def writeTri (st : Schema) (i : Nat) (t : Tristate) : Schema :=
  setSym st i { symAt st i with tri := t }

/-- Modelled from the spec: `c_sym_set_string_value` (native bridge string
setter).  It stores the canonical string rendering; the model always
accepts. -/
def writeStr (st : Schema) (i : Nat) (s : String) : Schema :=
  setSym st i { symAt st i with str_value := s }

/-- Modelled from the spec: `c_sym_calc_value` (native bridge).  The spec
says it recomputes the derived `visible` (from the deps-with-prompts
expression, `Const(true)` when absent) and the reverse-dependency floor
(from the reverse-dependencies expression, `Const(false)` when absent); a
non-evaluating expression leaves the stored value. -/
def calcSym (st : Schema) (s : Sym) : Sym :=
  { s with
    visible :=
      match evalO st (s.vis_expr.getD (.Const true)) with
      | some (.ok t) => t
      | _ => s.visible,
    rev_dep_tri :=
      match evalO st (s.rev_expr.getD (.Const false)) with
      | some (.ok t) => t
      | _ => s.rev_dep_tri }

/-- `Symbol::recalculate` from `src/bridge/symbol.rs`: `c_sym_calc_value` on
one symbol. -/
def recalcSymbol (st : Schema) (i : Nat) : Schema :=
  setSym st i (calcSym st (symAt st i))

/-- `Bridge::recalculate_all_symbols` from `src/bridge/mod.rs`: recalculate
every non-const named symbol.  `calc_value` only writes derived fields that
evaluation does not read, so the sequential Rust sweep equals this
simultaneous map. -/
def recalcAllSymbols (st : Schema) : Schema :=
  st.map (fun s => if s.is_const || s.name.isNone then s else calcSym st s)

/-- `reverse_dependencies()` from `src/bridge/symbol.rs`: the reverse
dependency expression, `Const(false)` when absent. -/
def revDepsExpr (st : Schema) (i : Nat) : Expr :=
  ((symAt st i).rev_expr).getD (.Const false)

/-- The `set_tristate` closure inside `Symbol::set_value`
(`src/bridge/symbol.rs` lines 108-165): read `min` from the raw
`reverse_dependencies.tri`, recalculate and read `max = visible()`, then the
bound checks, the `MODULES` check (which dereferences
`bridge.symbol("MODULES").unwrap()`, a panic when `MODULES` is absent, and
only fires when `MODULES` is `No`), then the bridge write. -/
def setTristateF (fuel : Nat) (st0 : Schema) (i : Nat) (value : Tristate) :
    Option (Schema × Option SymbolSetError) :=
  let min := (symAt st0 i).rev_dep_tri
  let st := recalcSymbol st0 i
  let max := (symAt st i).visible
  if max < value then
    match (symAt st i).vis_expr with
    | none =>
      match (revDepsExpr st i).or_clauses.mapM (displayExpr st) with
      | none => none
      | some rds => some (st, some (.MustBeSelected rds))
    | some ve =>
      match ve.and_clauses.mapM (displayExpr st) with
      | none => none
      | some deps =>
        match symbolSatisfy fuel st i ⟨value, true⟩ with
        | none => none
        | some sc => some (st, some (.UnmetDependencies min max deps sc))
  else if value < min then
    match (revDepsExpr st i).or_clauses.mapM (displayExpr st) with
    | none => none
    | some rds => some (st, some (.RequiredByOther min max rds))
  else if ¬ (min ≤ max) then some (st, some (.InvalidVisibility min max))
  else if value = .Mod then
    match symbolIdx st "MODULES" with
    | none => none
    | some m =>
      if (symAt st m).tri = .No then some (st, some .ModulesNotEnabled)
      else some (writeTri st i value, none)
  else some (writeTri st i value, none)

/-- The final `recalculate_all_symbols` of `Symbol::set_value` (line 234),
reached only when the matched arm succeeded without an early return. -/
def finishRecalc : Option (Schema × Option SymbolSetError) → Option (Schema × Option SymbolSetError)
  | none => none
  | some (st, some e) => some (st, some e)
  | some (st, none) => some (recalcAllSymbols st, none)

/-- The body of `Symbol::set_value` from `src/bridge/symbol.rs`: the
pre-flight target checks, then the `(symbol_type, value)` match.  `rec` is
the recursive `self.set_value(...)` call of the `Auto`/`Number`
re-submission arms; `fuel` feeds the satisfier used for the
`UnmetDependencies` suggestion.  The `Hex`/`Auto` arm slices `&value[..2]`,
which panics (`none`) for strings shorter than two characters.  Errors
return the state reached so far; success runs the closing recalculation
sweep (twice for the re-submitting arms, which fall through to line 234
after the inner call has already swept). -/
def setValueBody (fuel : Nat)
    (rec : Schema → Nat → SymbolValue → Option (Schema × Option SymbolSetError))
    (st : Schema) (i : Nat) (value : SymbolValue) : Option (Schema × Option SymbolSetError) :=
    if (symAt st i).is_const then some (st, some .IsConst)
    else if (symAt st i).is_choice then some (st, some .IsChoice)
    else if ¬ ((symAt st i).prompt_count > 0) then some (st, some .CannotSetManually)
    else
      match (symAt st i).symbol_type, value with
      | .Unknown, .Auto _ => some (st, some .UnknownType)
      | .Boolean, .Auto s =>
        if s = "y" ∨ s = "n" then finishRecalc (rec st i (.Boolean (s = "y")))
        else some (st, some .InvalidBoolean)
      | .Tristate, .Auto s =>
        match Tristate.parse? s with
        | none => some (st, some .InvalidTristate)
        | some t => finishRecalc (rec st i (.Tristate t))
      | .Int, .Auto s =>
        match parseRadixChars decDigit? 10 s.data with
        | none => some (st, some .InvalidInt)
        | some v => finishRecalc (rec st i (.Int v))
      | .Hex, .Auto s =>
        match s.data with
        | c0 :: c1 :: rest =>
          if c0 = '0' ∧ c1 = 'x' then
            match parseRadixChars hexDigit? 16 rest with
            | none => some (st, some .InvalidHex)
            | some v => finishRecalc (rec st i (.Hex v))
          else some (st, some .InvalidHex)
        | _ => none
      | .String, .Auto s => finishRecalc (rec st i (.String s))
      | .Boolean, .Boolean b => finishRecalc (setTristateF fuel st i (.ofBool b))
      | .Tristate, .Boolean b => finishRecalc (setTristateF fuel st i (.ofBool b))
      | .Boolean, .Tristate t =>
        if t ≠ .Mod then finishRecalc (setTristateF fuel st i t)
        else some (st, some .InvalidValue)
      | .Tristate, .Tristate t => finishRecalc (setTristateF fuel st i t)
      | .Int, .Int v =>
        if ((symAt st i).int_min = 0 ∧ (symAt st i).int_max = 0) ∨
            ((symAt st i).int_min ≤ v ∧ v ≤ (symAt st i).int_max) then
          finishRecalc (some (writeStr st i (Nat.repr v), none))
        else some (st, some (.OutOfRange (symAt st i).int_min (symAt st i).int_max))
      | .Hex, .Hex v =>
        if ((symAt st i).int_min = 0 ∧ (symAt st i).int_max = 0) ∨
            ((symAt st i).int_min ≤ v ∧ v ≤ (symAt st i).int_max) then
          finishRecalc (some (writeStr st i (hexFormat v), none))
        else some (st, some (.OutOfRange (symAt st i).int_min (symAt st i).int_max))
      | .String, .String s =>
        if s.data.contains '\x00' then none
        else finishRecalc (some (writeStr st i s, none))
      | .Int, .Number v => rec st i (.Int v)
      | .Hex, .Number v => rec st i (.Hex v)
      | _, _ => some (st, some .InvalidValue)


/-- The re-submission recursion of `Symbol::set_value`: the body above with
itself as the re-submission continuation, cut off by a depth counter (Rust
recursion depth is at most one, so the counter never reaches zero from the
entry point below). -/
def setValueD (fuel : Nat) : Nat → Schema → Nat → SymbolValue → Option (Schema × Option SymbolSetError)
  | 0, _, _, _ => none
  | d + 1, st, i, value => setValueBody fuel (setValueD fuel d) st i value

/-- `Symbol::set_value` at its entry point (re-submission depth 3 always
suffices: at most one `Auto`/`Number` hop occurs). -/
def setValue (fuel : Nat) (st : Schema) (i : Nat) (value : SymbolValue) :
    Option (Schema × Option SymbolSetError) :=
  setValueD fuel 3 st i value

/-- The engine state seen by the tracked operations: the schema plus the
transaction journal (`Bridge::history`). -/
structure KState : Type where
  syms : Schema
  history : List Transaction
deriving DecidableEq, Repr

/-- `Symbol::set_value_tracked` from `src/bridge/symbol.rs`: read the value
before (`get_value().unwrap()`, a panic on a failed read), set, then append
a `Transaction` recording intended value, before/after values and the error,
and return the same error.  The `name().unwrap()` panics for an unnamed
symbol. -/
def setValueTracked (fuel : Nat) (st : KState) (i : Nat) (value : SymbolValue)
    (file : String) (line : Nat) (traceback : Option String) :
    Option (KState × Option SymbolSetError) :=
  match getValue st.syms i with
  | none => none
  | some (.error _) => none
  | some (.ok before) =>
    match setValue fuel st.syms i value with
    | none => none
    | some (syms2, err) =>
      match (symAt syms2 i).name with
      | none => none
      | some nm =>
        match getValue syms2 i with
        | none => none
        | some (.error _) => none
        | some (.ok after) =>
          some (⟨syms2,
                 st.history ++
                   [{ symbol := nm, file := file, line := line, traceback := traceback,
                      value := value, value_before := before, value_after := after,
                      error := err }]⟩, err)

/-- `Symbol::satisfy_track_error` from `src/bridge/symbol.rs`: a successful
satisfy returns directly appending nothing; a failed satisfy appends a
`Transaction` whose before and after values are both the current value and
whose error wraps the solver error in `SatisfyFailed`. -/
def satisfyTrackError (fuel : Nat) (st : KState) (i : Nat) (value : SymbolValue)
    (file : String) (line : Nat) (traceback : Option String) (cfg : SolverConfig) :
    Option (KState × Except SolveError (List (String × Tristate))) :=
  match symbolSatisfy fuel st.syms i cfg with
  | none => none
  | some (.ok r) => some (st, .ok r)
  | some (.error e) =>
    match getValue st.syms i with
    | none => none
    | some (.error _) => none
    | some (.ok current) =>
      match (symAt st.syms i).name with
      | none => none
      | some nm =>
        some ({ st with
                history := st.history ++
                  [{ symbol := nm, file := file, line := line, traceback := traceback,
                     value := value, value_before := current, value_after := current,
                     error := some (.SatisfyFailed e) }] }, .error e)

/-- One parsed line of a `.config`-style source
(`Assignment` in `src/script/kconfig.rs`). -/
structure KAssignment : Type where
  symbol : String
  value : String
  line : Nat
deriving DecidableEq, Repr

/-- The two error sources of `KConfig::apply`: a missing symbol
(`could not get symbol`) or a propagated `SymbolSetError`. -/
inductive ApplyError : Type
  | SymbolNotFound (symbol : String)
  | SetFailed (error : SymbolSetError)
deriving DecidableEq, Repr

/-- `KConfig::apply` from `src/script/kconfig.rs` (and identically
`KConfig::apply_kernel_config` from `src/config/kconfig.rs`): apply each
assignment with `set_value_tracked(Auto(value), file, line, None)` and
propagate the first error with `?`, stopping the loop. -/
def applyKConfig (fuel : Nat) (file : String) : KState → List KAssignment →
    Option (KState × Option ApplyError)
  | st, [] => some (st, none)
  | st, a :: rest =>
    match symbolIdx st.syms a.symbol with
    | none => some (st, some (.SymbolNotFound a.symbol))
    | some i =>
      match setValueTracked fuel st i (.Auto a.value) file a.line none with
      | none => none
      | some (st2, some e) => some (st2, some (.SetFailed e))
      | some (st2, none) => applyKConfig fuel file st2 rest

/-- Number of `error:` blocks `validate_transactions`
(`src/bridge/transaction.rs`) emits: one per transaction with an error. -/
def countErrors (history : List Transaction) : Nat :=
  history.countP (fun t => t.error.isSome)

/-- The reassignment-warning condition of `validate_transactions` for one
transaction: some earlier transaction touched the same symbol and this
transaction actually changed the value (the inner loop breaks after the
first hit, so at most one warning per transaction). -/
def reassignmentWarning (prev : List Transaction) (t : Transaction) : Bool :=
  decide (t.value_before ≠ t.value_after) && prev.any (fun o => o.symbol = t.symbol)

/-- Count of reassignment warnings over the journal, walked in order with
the earlier transactions accumulated. -/
def countReassignmentWarningsAux : List Transaction → List Transaction → Nat
  | _, [] => 0
  | prev, t :: rest =>
    (if reassignmentWarning prev t then 1 else 0) + countReassignmentWarningsAux (prev ++ [t]) rest

/-- Total reassignment warnings `validate_transactions` emits. -/
def countReassignmentWarnings (history : List Transaction) : Nat :=
  countReassignmentWarningsAux [] history

/-- `validate_transactions` succeeds iff no transaction carries an error. -/
def validateOk (history : List Transaction) : Bool :=
  decide (countErrors history = 0)

/-! Concrete schema states used to witness and refute the claims. -/

/-- A plain assignable tristate symbol; concrete states override fields. -/
def baseSym : Sym :=
  { name := none, symbol_type := .Tristate, is_const := false, is_choice := false,
    prompt_count := 1, tri := .No, str_value := "", visible := .Yes, rev_dep_tri := .No,
    vis_expr := none, rev_expr := none, int_min := 0, int_max := 0, choice_children := [] }

/-- Schema for C2: `MODULES` (id 0) currently `Mod`, and an assignable
tristate symbol `T` (id 1) with trivially true visibility. -/
def stC2 : Schema :=
  [{ baseSym with name := some "MODULES", tri := .Mod },
   { baseSym with name := some "T", vis_expr := some (.Const true) }]

/-- Schema for C4: one assignable `Hex` symbol `H` with unbounded range. -/
def stC4 : Schema :=
  [{ baseSym with name := some "H", symbol_type := .Hex, str_value := "0x0" }]

/-- State for the C5 counterexample: `X` (id 0, currently `Mod`) is visible
when `A` holds, while `A` (id 1) is visible when `X` does not hold; both are
assignable. -/
def stC5cx : Schema :=
  [{ baseSym with
      name := some "X", tri := .Mod, vis_expr := some (.Terminal (.Symbol 1)) },
   { baseSym with
      name := some "A", vis_expr := some (.Not (.Terminal (.Symbol 0))) }]

/-- State for the C5 witness: `X` (id 0) is visible when both `A` (id 1) and
`B` (id 2) hold. -/
def stC5w : Schema :=
  [{ baseSym with
      name := some "X",
      vis_expr := some (.And (.Terminal (.Symbol 1)) (.Terminal (.Symbol 2))) },
   { baseSym with name := some "A" },
   { baseSym with name := some "B" }]

/-- Schema for C3: a single assignable tristate symbol `S`. -/
def stC3 : Schema :=
  [{ baseSym with name := some "S", vis_expr := some (.Const true) }]

/-- Schema for C1: a const symbol `C` (assignments to it fail with `IsConst`)
and an ordinary assignable symbol `D`. -/
def stC1 : Schema :=
  [{ baseSym with name := some "C", symbol_type := .Boolean, is_const := true },
   { baseSym with name := some "D", vis_expr := some (.Const true) }]

/-- Schema for C9: an `Int` symbol `I` with declared range `(5, 10)` and an
`Int` symbol `J` with range `(0, 0)`. -/
def stC9 : Schema :=
  [{ baseSym with
      name := some "I", symbol_type := .Int, str_value := "7",
      int_min := 5, int_max := 10 },
   { baseSym with name := some "J", symbol_type := .Int, str_value := "7" }]

/-- Schema for C10: `U` has a provably unsatisfiable visibility expression,
so `satisfy` on it fails with `Unsatisfiable`; `V` has a trivially true one,
so `satisfy` on it succeeds. -/
def stC10 : Schema :=
  [{ baseSym with name := some "U", vis_expr := some (.Const false) },
   { baseSym with name := some "V", vis_expr := some (.Const true) }]

/-! Claim theorems. -/

/-- `min` on `Tristate` computes as the `if` used in `Expr::eval`. -/
theorem tri_if_lt_eq_min (x y : Tristate) : (if x < y then x else y) = min x y := by
  cases x <;> cases y <;> decide

/-- `max` on `Tristate` computes as the `if` used in `Expr::eval`. -/
theorem tri_if_gt_eq_max (x y : Tristate) : (if x > y then x else y) = max x y := by
  cases x <;> cases y <;> decide

/-- C7: expression evaluation is a homomorphism into the tristate lattice:
when `eval e` is defined, `eval (Not e) = invert (eval e)`; when `eval a`
and `eval b` are defined, `eval (And a b) = min (eval a) (eval b)` and
`eval (Or a b) = max (eval a) (eval b)`. -/
theorem eval_lattice_hom (st : Schema) (e a b : Expr) (t ta tb : Tristate) :
    (evalO st e = some (.ok t) → evalO st (.Not e) = some (.ok t.invert)) ∧
    (evalO st a = some (.ok ta) → evalO st b = some (.ok tb) →
      evalO st (.And a b) = some (.ok (min ta tb)) ∧
      evalO st (.Or a b) = some (.ok (max ta tb))) := by
  refine ⟨fun h => ?_, fun ha hb => ⟨?_, ?_⟩⟩
  · simp [evalO, h]
  · simp [evalO, ha, hb, tri_if_lt_eq_min]
  · simp [evalO, ha, hb, tri_if_gt_eq_max]

/-- C7 witness: the homomorphism at concrete inputs. -/
theorem eval_lattice_hom_instance :
    evalO stC3 (.Not (.Const true)) = some (.ok Tristate.No) ∧
    evalO stC3 (.And (.Const true) (.Const false)) = some (.ok Tristate.No) ∧
    evalO stC3 (.Or (.Const true) (.Const false)) = some (.ok Tristate.Yes) := by
  have h := eval_lattice_hom stC3 (.Const true) (.Const true) (.Const false)
    Tristate.Yes Tristate.Yes Tristate.No
  refine ⟨h.1 rfl, ?_, ?_⟩
  · exact ((h.2 rfl rfl).1).trans (by decide)
  · exact ((h.2 rfl rfl).2).trans (by decide)

/-- C8: `satisfy_neq` computes the emitted value by the table `No → desired`,
`Mod → Yes`, `Yes → Mod`; when that value is `Mod` and the symbol is not a
tristate it fails with `RequiresModForBoolean`, otherwise it emits exactly
the single assignment. -/
theorem satisfy_neq_table (st : Schema) (a : Nat) (n : String) (b d : Tristate)
    (hname : (symAt st a).name = some n) :
    satisfy_neq st a b d =
      (let assign : Tristate :=
        match b with
        | .No => d
        | .Mod => .Yes
        | .Yes => .Mod
      if assign = .Mod ∧ (symAt st a).symbol_type ≠ .Tristate then
        .error (.RequiresModForBoolean n)
      else
        .ok [(n, assign)]) := by
  simp [satisfy_neq, hname]

/-- C8 witness: the table and the `Mod`-vs-boolean guard at concrete
inputs. -/
theorem satisfy_neq_table_instance :
    satisfy_neq stC3 0 .No .Yes = .ok [("S", Tristate.Yes)] ∧
    satisfy_neq stC1 0 .Yes .Yes = .error (.RequiresModForBoolean "C") := by
  constructor
  · exact (satisfy_neq_table stC3 0 "S" .No .Yes rfl).trans (by decide)
  · exact (satisfy_neq_table stC1 0 "C" .Yes .Yes rfl).trans (by decide)

/-- C4 (code bug): on a `Hex` symbol, `set_value(Auto("1"))` panics — the
check `&value[..2] == "0x"` slices a one-character string out of bounds —
instead of returning `InvalidHex` as the specification requires, while a
two-or-more-character non-`0x` string does return `InvalidHex`. -/
theorem hex_auto_short_string_panics :
    setValue 5 stC4 0 (.Auto "1") = none ∧
    setValue 5 stC4 0 (.Auto "") = none ∧
    setValue 5 stC4 0 (.Auto "100") = some (stC4, some .InvalidHex) := by
  refine ⟨rfl, rfl, rfl⟩

/-- C2 counterexample: with `MODULES` currently `Mod` (so "not `Yes`"), the
code accepts a `Mod` assignment that passed all earlier checks instead of
failing with `ModulesNotEnabled`: the guard compares against `No`, not
against "not `Yes`". -/
theorem modules_mod_check_passes :
    (symAt stC2 0).name = some "MODULES" ∧
    (symAt stC2 0).tri = Tristate.Mod ∧
    (setValue 4 stC2 1 (.Tristate .Mod)).map (fun p => p.2) = some none := by
  refine ⟨rfl, rfl, rfl⟩

/-- C2 amended: for a tristate assignment that passes the target, type,
visibility-bound and reverse-dependency checks, the `Mod` check fails with
`ModulesNotEnabled` exactly when the assigned value is `Mod` and the
`MODULES` symbol's current value is `No` (not merely "not `Yes`");
otherwise the write succeeds. -/
theorem modules_check_requires_no (fuel : Nat) (st : Schema) (i : Nat) (v : Tristate) (m : Nat)
    (h1 : (symAt st i).is_const = false)
    (h2 : (symAt st i).is_choice = false)
    (h3 : 0 < (symAt st i).prompt_count)
    (h4 : (symAt st i).symbol_type = .Tristate)
    (h5 : v ≤ (symAt (recalcSymbol st i) i).visible)
    (h6 : (symAt st i).rev_dep_tri ≤ v)
    (h7 : (symAt st i).rev_dep_tri ≤ (symAt (recalcSymbol st i) i).visible)
    (hm : symbolIdx (recalcSymbol st i) "MODULES" = some m) :
    setValue fuel st i (.Tristate v) =
      (if v = Tristate.Mod ∧ (symAt (recalcSymbol st i) m).tri = Tristate.No then
        some (recalcSymbol st i, some .ModulesNotEnabled)
      else
        some (recalcAllSymbols (writeTri (recalcSymbol st i) i v), none)) := by
  have hstep : setValue fuel st i (.Tristate v) =
      setValueBody fuel (setValueD fuel 2) st i (.Tristate v) := rfl
  rw [hstep]
  simp only [setValueBody, h1, h2, h4, Bool.false_eq_true, if_false, gt_iff_lt, h3,
    not_true, not_false_iff, if_true, setTristateF]
  rw [if_neg (not_lt.mpr h5), if_neg (not_lt.mpr h6), if_neg (not_not_intro h7)]
  by_cases hv : v = Tristate.Mod
  · rw [if_pos hv, hm]
    dsimp only
    by_cases hmi : (symAt (recalcSymbol st i) m).tri = Tristate.No
    · rw [if_pos hmi, if_pos ⟨hv, hmi⟩]
      rfl
    · rw [if_neg hmi, if_neg (fun h => hmi h.2)]
      simp [finishRecalc]
  · rw [if_neg hv, if_neg (fun h => hv h.1)]
    simp [finishRecalc]

/-- Schema for the C2 witness: like `stC2` but with `MODULES` set to `No`. -/
def stC2b : Schema :=
  [{ baseSym with name := some "MODULES", tri := .No },
   { baseSym with name := some "T", vis_expr := some (.Const true) }]

/-- C2 witness: with `MODULES = No`, a `Mod` assignment passing the earlier
checks fails with `ModulesNotEnabled`. -/
theorem modules_check_requires_no_instance :
    setValue 4 stC2b 1 (.Tristate .Mod) =
      some (recalcSymbol stC2b 1, some .ModulesNotEnabled) := by
  exact (modules_check_requires_no 4 stC2b 1 .Mod 0 rfl rfl (by decide) rfl
    (by decide) (by decide) (by decide) (by decide)).trans (by decide)

/-- C9: for an `Int` or `Hex` symbol, a declared range `(0, 0)` accepts any
value, and otherwise the write succeeds exactly on `min ≤ v ≤ max` and fails
with `OutOfRange` outside. -/
theorem int_hex_range_check (fuel : Nat) (st : Schema) (i : Nat) (v : Nat) (val : SymbolValue)
    (h1 : (symAt st i).is_const = false)
    (h2 : (symAt st i).is_choice = false)
    (h3 : 0 < (symAt st i).prompt_count)
    (hv : ((symAt st i).symbol_type = .Int ∧ val = .Int v) ∨
          ((symAt st i).symbol_type = .Hex ∧ val = .Hex v)) :
    ((((symAt st i).int_min = 0 ∧ (symAt st i).int_max = 0) ∨
        ((symAt st i).int_min ≤ v ∧ v ≤ (symAt st i).int_max)) →
      ∃ st2, setValue fuel st i val = some (st2, none)) ∧
    (¬ (((symAt st i).int_min = 0 ∧ (symAt st i).int_max = 0) ∨
        ((symAt st i).int_min ≤ v ∧ v ≤ (symAt st i).int_max)) →
      setValue fuel st i val =
        some (st, some (.OutOfRange (symAt st i).int_min (symAt st i).int_max))) := by
  rcases hv with ⟨hty, hval⟩ | ⟨hty, hval⟩ <;> subst hval <;>
  · rw [show setValue fuel st i _ = setValueBody fuel (setValueD fuel 2) st i _ from rfl]
    simp only [setValueBody, h1, h2, hty, Bool.false_eq_true, if_false, gt_iff_lt, h3,
      not_true, not_false_iff, if_true]
    constructor
    · intro hr
      rw [if_pos hr]
      exact ⟨_, rfl⟩
    · intro hr
      rw [if_neg hr]

/-- C9 witness: the range check at concrete inputs — a bounded `Int` symbol
accepts an in-range value and rejects an out-of-range one with `OutOfRange`,
and a `(0, 0)`-range symbol accepts a large value. -/
theorem int_hex_range_check_instance :
    (∃ st2, setValue 4 stC9 0 (.Int 7) = some (st2, none)) ∧
    setValue 4 stC9 0 (.Int 11) = some (stC9, some (.OutOfRange 5 10)) ∧
    (∃ st2, setValue 4 stC9 1 (.Int 999999) = some (st2, none)) := by
  refine ⟨?_, ?_, ?_⟩
  · exact (int_hex_range_check 4 stC9 0 7 (.Int 7) rfl rfl (by decide)
      (Or.inl ⟨rfl, rfl⟩)).1 (by decide)
  · exact ((int_hex_range_check 4 stC9 0 11 (.Int 11) rfl rfl (by decide)
      (Or.inl ⟨rfl, rfl⟩)).2 (by decide)).trans (by decide)
  · exact (int_hex_range_check 4 stC9 1 999999 (.Int 999999) rfl rfl (by decide)
      (Or.inl ⟨rfl, rfl⟩)).1 (by decide)

/-- C10: `satisfy_track_error` appends a transaction exactly when the inner
satisfy fails; the appended transaction records equal before/after values
(the symbol state is untouched) and the error `SatisfyFailed` wrapping the
solver error, while a successful satisfy appends nothing. -/
theorem satisfy_track_error_journal (fuel : Nat) (st : KState) (i : Nat) (v : SymbolValue)
    (file : String) (line : Nat) (tb : Option String) (cfg : SolverConfig)
    (n : String) (cur : SymbolValue)
    (hn : (symAt st.syms i).name = some n)
    (hc : getValue st.syms i = some (.ok cur)) :
    (∀ r, symbolSatisfy fuel st.syms i cfg = some (.ok r) →
      satisfyTrackError fuel st i v file line tb cfg = some (st, .ok r)) ∧
    (∀ e, symbolSatisfy fuel st.syms i cfg = some (.error e) →
      satisfyTrackError fuel st i v file line tb cfg =
        some ({ st with
                history := st.history ++
                  [{ symbol := n, file := file, line := line, traceback := tb,
                     value := v, value_before := cur, value_after := cur,
                     error := some (.SatisfyFailed e) }] }, .error e)) := by
  constructor
  · intro r hr
    simp [satisfyTrackError, hr]
  · intro e he
    simp [satisfyTrackError, he, hc, hn]

/-- C10 witness: the failing and succeeding cases at concrete inputs. -/
theorem satisfy_track_error_journal_instance :
    satisfyTrackError 6 ⟨stC10, []⟩ 0 (.Tristate .Yes) "f" 3 none ⟨.Yes, true⟩ =
      some (⟨stC10,
             [{ symbol := "U", file := "f", line := 3, traceback := none,
                value := .Tristate .Yes, value_before := .Tristate .No,
                value_after := .Tristate .No,
                error := some (.SatisfyFailed .Unsatisfiable) }]⟩, .error .Unsatisfiable) ∧
    satisfyTrackError 6 ⟨stC10, []⟩ 1 (.Tristate .Yes) "f" 3 none ⟨.Yes, true⟩ =
      some (⟨stC10, []⟩, .ok []) := by
  constructor
  · exact ((satisfy_track_error_journal 6 ⟨stC10, []⟩ 0 (.Tristate .Yes) "f" 3 none
      ⟨.Yes, true⟩ "U" (.Tristate .No) rfl rfl).2 .Unsatisfiable (by decide)).trans (by decide)
  · exact (satisfy_track_error_journal 6 ⟨stC10, []⟩ 1 (.Tristate .Yes) "f" 3 none
      ⟨.Yes, true⟩ "V" (.Tristate .No) rfl rfl).1 [] (by decide)

/-- C3 counterexample: applying the same fully-valid assignment twice yields
the same final symbol state but zero reassignment warnings, not one — the
warning requires the later transaction to change the value, which a repeat
of the same assignment never does. -/
theorem repeat_assignment_zero_warnings :
    ((setValueTracked 4 ⟨stC3, []⟩ 0 (.Tristate .Yes) "f" 1 none).bind fun p =>
      (setValueTracked 4 p.1 0 (.Tristate .Yes) "f" 2 none).map fun q =>
        (countReassignmentWarnings q.1.history, decide (q.1.syms = p.1.syms),
         p.2.isNone, q.2.isNone))
      = some (0, true, true, true) := by
  rfl

/-- The dependency set the satisfier recorded for a symbol (empty when the
symbol was never processed). -/
def entryDeps (deps : List (String × List String)) (k : String) : List String :=
  ((deps.find? (fun p => p.1 = k)).map (·.2)).getD []

/-- The claimed output order: no emitted entry depends on a later entry. -/
def TopoRespecting (out : List (String × Tristate)) (deps : List (String × List String)) : Prop :=
  List.Pairwise (fun e1 e2 => e2.1 ∉ entryDeps deps e1.1) out

/-- C5 counterexample: a successful recursive satisfy whose output violates
the claimed topological order.  Making `X` (currently `Mod`) visible needs
`A = Yes`, while making `A` visible needs `X = No`; the solver emits
`(X, No)` before `(A, Yes)` although `X`'s recorded dependency set is
`[A]` — the `No`-valued entry depends on a later entry. -/
theorem satisfy_not_topological :
    satisfyDebug 10 (fun l => l) stC5cx "X" ⟨.Yes, true⟩ =
      some (.ok ⟨[("X", .No), ("A", .Yes)], [("X", ["A"]), ("A", [])], []⟩) ∧
    ¬ TopoRespecting [("X", .No), ("A", .Yes)] [("X", ["A"]), ("A", [])] := by
  constructor
  · rfl
  · intro h
    rcases h with _ | ⟨hx, _⟩
    exact hx ("A", Tristate.Yes) (by simp) (by decide)

/-- C6 counterexample: merging conflicting maps in the two orders yields
`ConflictingAssignment` errors with the two values swapped — the failures
are not identical, refuting "both fail identically". -/
theorem merge_conflict_errors_differ :
    mergeFun [("A", .Yes)] [("A", .No)] =
      .error (.ConflictingAssignment "A" .Yes .No) ∧
    mergeFun [("A", .No)] [("A", .Yes)] =
      .error (.ConflictingAssignment "A" .No .Yes) ∧
    mergeFun [("A", .Yes)] [("A", .No)] ≠ mergeFun [("A", .No)] [("A", .Yes)] := by
  exact ⟨rfl, rfl, by decide⟩

/-- The conflict-freedom scan of `merge`, as a decidable predicate: every
entry of the first map agrees with the second map where their keys meet. -/
def conflictFreeB (a b : Assignments) : Bool :=
  a.all (fun p =>
    match lookupA b p.1 with
    | some w => decide (p.2 = w)
    | none => true)

/-- A member's binding is what lookup returns, for maps with unique keys. -/
theorem lookupA_eq_of_mem (l : Assignments) (p : String × Tristate)
    (hnd : (l.map Prod.fst).Nodup) (hp : p ∈ l) : lookupA l p.1 = some p.2 := by
  induction l with
  | nil => cases hp
  | cons q rest ih =>
    rcases List.mem_cons.mp hp with hq | hq
    · subst hq
      simp [lookupA, List.find?]
    · have hne : q.1 ≠ p.1 := by
        intro hcontra
        have : p.1 ∈ rest.map Prod.fst := List.mem_map_of_mem Prod.fst hq
        rw [← hcontra] at this
        exact (List.nodup_cons.mp hnd).1 this
      have hrest := ih (List.nodup_cons.mp hnd).2 hq
      simpa [lookupA, List.find?, hne] using hrest

/-- A successful lookup names a member of the map. -/
theorem mem_of_lookupA (l : Assignments) (k : String) (v : Tristate)
    (h : lookupA l k = some v) : (k, v) ∈ l := by
  unfold lookupA at h
  cases hf : l.find? (fun p => p.1 = k) with
  | none => rw [hf] at h; cases h
  | some p =>
    rw [hf] at h
    have hpred := List.find?_some hf
    have hmem := List.mem_of_find?_eq_some hf
    have hk : p.1 = k := by simpa using hpred
    have hv : p.2 = v := by simpa using h
    have : (k, v) = p := by
      cases p
      simp_all
    rwa [this]

/-- The conflict scan finds nothing iff the maps are conflict free. -/
theorem mergeConflicts_eq_nil_iff (a b : Assignments) :
    mergeConflicts a b = [] ↔ conflictFreeB a b = true := by
  rw [mergeConflicts, List.filterMap_eq_nil_iff, conflictFreeB, List.all_eq_true]
  constructor
  · intro h p hp
    have := h p hp
    cases hl : lookupA b p.1 with
    | none => simp
    | some w =>
      rw [hl] at this
      by_cases hev : p.2 = w
      · simp [hev]
      · simp [hev] at this
  · intro h p hp
    have := h p hp
    cases hl : lookupA b p.1 with
    | none => simp [hl]
    | some w =>
      rw [hl] at this
      have hev : p.2 = w := by simpa using this
      simp [hl, hev]

/-- Conflict freedom is symmetric for maps with unique keys. -/
theorem conflictFreeB_symm (a b : Assignments)
    (ha : (a.map Prod.fst).Nodup) (hb : (b.map Prod.fst).Nodup)
    (h : conflictFreeB a b = true) : conflictFreeB b a = true := by
  rw [conflictFreeB, List.all_eq_true]
  intro p hp
  cases hl : lookupA a p.1 with
  | none => simp
  | some w =>
    have hwa : (p.1, w) ∈ a := mem_of_lookupA a p.1 w hl
    have hclause := (List.all_eq_true.mp h) (p.1, w) hwa
    have hpb : lookupA b p.1 = some p.2 := lookupA_eq_of_mem b p hb hp
    rw [hpb] at hclause
    have : w = p.2 := by simpa using hclause
    simp [this]

/-- Lookup distributes over append. -/
theorem lookupA_append (l1 l2 : Assignments) (k : String) :
    lookupA (l1 ++ l2) k =
      (match lookupA l1 k with
       | some v => some v
       | none => lookupA l2 k) := by
  unfold lookupA
  rw [List.find?_append]
  cases hf : l1.find? (fun p => p.1 = k) <;> simp [Option.orElse, hf]

/-- Filtering out keys of `b` does not disturb lookups of keys absent
from `b`. -/
theorem lookupA_filter_keep (a b : Assignments) (k : String)
    (h : lookupA b k = none) :
    lookupA (a.filter (fun p => (lookupA b p.1).isNone)) k = lookupA a k := by
  induction a with
  | nil => rfl
  | cons q rest ih =>
    by_cases hq : q.1 = k
    · have hbq : lookupA b q.1 = none := by rw [hq]; exact h
      rw [List.filter_cons_of_pos (by simp [hbq])]
      simp [lookupA, List.find?, hq]
    · by_cases hkeep : (lookupA b q.1).isNone
      · rw [List.filter_cons_of_pos (by simpa using hkeep)]
        simpa [lookupA, List.find?, hq] using ih
      · rw [List.filter_cons_of_neg (by simpa using hkeep)]
        rw [ih]
        simp [lookupA, List.find?, hq]

/-- Lookup misses exactly when no entry carries the key. -/
theorem lookupA_eq_none (l : Assignments) (k : String) :
    lookupA l k = none ↔ ∀ p ∈ l, p.1 ≠ k := by
  simp [lookupA, List.find?_eq_none]

/-- Filtering out keys of `b` removes every entry whose key `b` holds. -/
theorem lookupA_filter_drop (a b : Assignments) (k : String) (w : Tristate)
    (h : lookupA b k = some w) :
    lookupA (a.filter (fun p => (lookupA b p.1).isNone)) k = none := by
  rw [lookupA_eq_none]
  intro p hp hpk
  have hkeep := (List.mem_filter.mp hp).2
  rw [hpk] at hkeep
  rw [h] at hkeep
  cases hkeep

/-- Agreement of overlapping values, extracted from the conflict scan. -/
theorem conflictFree_agrees (a b : Assignments) (h : conflictFreeB a b = true)
    (k : String) (va vb : Tristate)
    (hva : lookupA a k = some va) (hvb : lookupA b k = some vb) : va = vb := by
  have hmem : (k, va) ∈ a := mem_of_lookupA a k va hva
  have hclause := (List.all_eq_true.mp h) (k, va) hmem
  rw [show lookupA b (k, va).1 = some vb from hvb] at hclause
  simpa using hclause

/-- C6 amended: for hash maps (unique keys), merging in either order
succeeds with the same key-value map when no key conflicts; when a key
conflicts, both orders fail with a `ConflictingAssignment` error, though the
two errors swap the reported values (and may report different keys). -/
theorem merge_commutative_amended (a b : Assignments)
    (ha : (a.map Prod.fst).Nodup) (hb : (b.map Prod.fst).Nodup) :
    (conflictFreeB a b = true →
      ∃ r1 r2, mergeFun a b = .ok r1 ∧ mergeFun b a = .ok r2 ∧
        ∀ k, lookupA r1 k = lookupA r2 k) ∧
    (conflictFreeB a b = false →
      ∃ s x y u z w, mergeFun a b = .error (.ConflictingAssignment s x y) ∧
        mergeFun b a = .error (.ConflictingAssignment u z w)) := by
  constructor
  · intro hcf
    have hcf2 := conflictFreeB_symm a b ha hb hcf
    have hnil1 : mergeConflicts a b = [] := (mergeConflicts_eq_nil_iff a b).mpr hcf
    have hnil2 : mergeConflicts b a = [] := (mergeConflicts_eq_nil_iff b a).mpr hcf2
    refine ⟨_, _, by rw [mergeFun, hnil1], by rw [mergeFun, hnil2], ?_⟩
    intro k
    rw [lookupA_append, lookupA_append]
    cases hA : lookupA a k with
    | some va =>
      cases hB : lookupA b k with
      | some vb =>
        have hagree := conflictFree_agrees a b hcf k va vb hA hB
        simp [hA, hB, hagree]
      | none =>
        simp [hA, hB, lookupA_filter_keep a b k hB]
    | none =>
      cases hB : lookupA b k with
      | some vb =>
        simp [hA, hB, lookupA_filter_keep b a k hA]
      | none =>
        simp [hA, hB, lookupA_filter_keep b a k hA, lookupA_filter_keep a b k hB]

  · intro hcf
    have hne1 : mergeConflicts a b ≠ [] := by
      intro hnil
      rw [(mergeConflicts_eq_nil_iff a b).mp hnil] at hcf
      cases hcf
    have hcf2 : conflictFreeB b a = false := by
      cases hba : conflictFreeB b a with
      | false => rfl
      | true =>
        have := conflictFreeB_symm b a hb ha hba
        rw [this] at hcf
        cases hcf
    have hne2 : mergeConflicts b a ≠ [] := by
      intro hnil
      rw [(mergeConflicts_eq_nil_iff b a).mp hnil] at hcf2
      cases hcf2
    cases hmc1 : mergeConflicts a b with
    | nil => exact absurd hmc1 hne1
    | cons c1 rest1 =>
      cases hmc2 : mergeConflicts b a with
      | nil => exact absurd hmc2 hne2
      | cons c2 rest2 =>
        exact ⟨c1.1, c1.2.1, c1.2.2, c2.1, c2.2.1, c2.2.2,
          by rw [mergeFun, hmc1], by rw [mergeFun, hmc2]⟩

/-- C6 witness: conflict-free merge in both orders at concrete maps. -/
theorem merge_commutative_amended_instance :
    ∃ r1 r2, mergeFun [("K", Tristate.Yes)] [("L", Tristate.No)] = .ok r1 ∧
      mergeFun [("L", Tristate.No)] [("K", Tristate.Yes)] = .ok r2 ∧
      ∀ k, lookupA r1 k = lookupA r2 k :=
  (merge_commutative_amended [("K", Tristate.Yes)] [("L", Tristate.No)]
    (by decide) (by decide)).1 (by decide)

/-- The tracked set always appends exactly one transaction, recording the
intended value and the error it returned. -/
theorem setValueTracked_shape (fuel : Nat) (st : KState) (i : Nat) (v : SymbolValue)
    (file : String) (line : Nat) (tb : Option String) (st2 : KState)
    (r : Option SymbolSetError)
    (h : setValueTracked fuel st i v file line tb = some (st2, r)) :
    ∃ t : Transaction, st2.history = st.history ++ [t] ∧ t.error = r ∧ t.value = v := by
  simp only [setValueTracked] at h
  split at h
  · cases h
  · cases h
  · split at h
    · cases h
    · split at h
      · cases h
      · split at h
        · cases h
        · cases h
        · rw [Option.some.injEq, Prod.mk.injEq] at h
          obtain ⟨h1, h2⟩ := h
          subst h2
          exact ⟨_, by rw [← h1], rfl, rfl⟩

/-- C1 counterexample: a two-line `.config` script whose first assignment
fails (`C` is const).  The journal records the failure on its transaction,
but `apply` returns the error: no transaction exists for `D`, whose value is
untouched — the frontend did not continue with subsequent assignments. -/
theorem kconfig_apply_aborts_on_error :
    (applyKConfig 4 "cfg" ⟨stC1, []⟩ [⟨"C", "y", 1⟩, ⟨"D", "y", 2⟩]).map
        (fun p => (p.1.history.map (fun t => (t.symbol, t.error)),
                   (symAt p.1.syms 1).tri, p.2))
      = some ([("C", some .IsConst)], Tristate.No, some (.SetFailed .IsConst)) := by
  rfl

/-- C1 amended: in the `.config`-style frontends a failing assignment is
recorded on its appended transaction, but `apply` then propagates the error
and stops — the remaining assignments of the script are never applied (only
the Lua frontend swallows the error and continues). -/
theorem kconfig_apply_stops_at_failure (fuel : Nat) (file : String) (st : KState)
    (a : KAssignment) (rest : List KAssignment) (i : Nat) (st2 : KState)
    (e : SymbolSetError)
    (hi : symbolIdx st.syms a.symbol = some i)
    (hset : setValueTracked fuel st i (.Auto a.value) file a.line none = some (st2, some e)) :
    applyKConfig fuel file st (a :: rest) = some (st2, some (.SetFailed e)) ∧
    ∃ t : Transaction, st2.history = st.history ++ [t] ∧ t.error = some e := by
  constructor
  · simp [applyKConfig, hi, hset]
  · obtain ⟨t, ht1, ht2, _⟩ := setValueTracked_shape fuel st i _ file a.line none st2 (some e) hset
    exact ⟨t, ht1, ht2⟩

/-- C1 witness: the amended behavior at a concrete script. -/
theorem kconfig_apply_stops_at_failure_instance :
    ∃ st2, applyKConfig 4 "w" ⟨stC1, []⟩ [⟨"C", "y", 3⟩, ⟨"D", "y", 4⟩] =
        some (st2, some (.SetFailed .IsConst)) ∧
      ∃ t : Transaction, st2.history = [t] ∧ t.error = some .IsConst := by
  have h := kconfig_apply_stops_at_failure 4 "w" ⟨stC1, []⟩ ⟨"C", "y", 3⟩
    [⟨"D", "y", 4⟩] 0 _ .IsConst rfl rfl
  exact ⟨_, h.1, by simpa using h.2⟩

/-! C5 amended: the topological property that does hold.  The proof works
with the dependency records `phase1` produces and a stratification argument
over the rounds of `phase2`. -/

/-- A symbol is user-assignable: its name resolves and it has a prompt
(the `retain` criterion of the satisfier). -/
def promptableB (st : Schema) (k : String) : Bool :=
  match symbolIdx st k with
  | some j => decide (0 < (symAt st j).prompt_count)
  | none => false

/-- Relation between the dependency record and the (retained) assignment map
`phase1` stores for one processed symbol: same key, every kept entry is
promptable, every non-`No` kept entry is a recorded dependency, and every
promptable recorded dependency is still present in the kept map. -/
def RecordOK (st : Schema) (d : String × List String) (s : String × Assignments) : Prop :=
  d.1 = s.1 ∧
  (∀ p ∈ s.2, promptableB st p.1 = true) ∧
  (∀ p ∈ s.2, p.2 ≠ Tristate.No → p.1 ∈ d.2) ∧
  (∀ k ∈ d.2, promptableB st k = true → ∃ v, (k, v) ∈ s.2)

/-- The ordering constraint of one emitted entry against a later one: a
non-`No` entry must not depend (per the recorded dependency sets) on any
entry emitted after it. -/
def TopoRel (origDeps : List (String × List String)) :
    (String × Tristate) → (String × Tristate) → Prop :=
  fun e1 e2 => e1.2 ≠ Tristate.No → e2.1 ∉ entryDeps origDeps e1.1

/-- `retain` keeps exactly the promptable entries (when it does not panic). -/
theorem retainPromptable_spec (st : Schema) :
    ∀ l kept, retainPromptable st l = some kept →
      kept = l.filter (fun p => promptableB st p.1) := by
  intro l
  induction l with
  | nil =>
    intro kept h
    simp only [retainPromptable, Option.some.injEq] at h
    simp [← h]
  | cons p rest ih =>
    intro kept h
    cases hidx : symbolIdx st p.1 with
    | none => simp only [retainPromptable, hidx] at h; cases h
    | some j =>
      cases hr : retainPromptable st rest with
      | none => simp only [retainPromptable, hidx, hr] at h; cases h
      | some kept2 =>
        simp only [retainPromptable, hidx, hr, Option.some.injEq] at h
        have hrest := ih kept2 hr
        by_cases hpc : 0 < (symAt st j).prompt_count
        · simp [← h, hpc, List.filter_cons, promptableB, hidx, hrest]
        · simp [← h, hpc, List.filter_cons, promptableB, hidx, hrest]

/-- Keys with a record resolve `entryDeps` to that record, under unique
keys. -/
theorem entryDeps_of_mem (origDeps : List (String × List String))
    (hnd : (origDeps.map Prod.fst).Nodup) (s : String) (ds : List String)
    (hmem : (s, ds) ∈ origDeps) : entryDeps origDeps s = ds := by
  induction origDeps with
  | nil => cases hmem
  | cons q rest ih =>
    rcases List.mem_cons.mp hmem with hq | hq
    · rw [← hq]
      simp [entryDeps, List.find?]
    · have hne : q.1 ≠ s := by
        intro hcontra
        have : s ∈ rest.map Prod.fst := by
          have : (s, ds).1 ∈ rest.map Prod.fst := List.mem_map_of_mem Prod.fst hq
          simpa using this
        rw [← hcontra] at this
        exact (List.nodup_cons.mp hnd).1 this
      have := ih (List.nodup_cons.mp hnd).2 hq
      simpa [entryDeps, List.find?, hne] using this

/-- `lookupSolved` of a member, under unique keys. -/
theorem lookupSolved_of_mem (solved : List (String × Assignments))
    (hnd : (solved.map Prod.fst).Nodup) (s : String) (a : Assignments)
    (hmem : (s, a) ∈ solved) : lookupSolved solved s = a := by
  induction solved with
  | nil => cases hmem
  | cons q rest ih =>
    rcases List.mem_cons.mp hmem with hq | hq
    · rw [← hq]
      simp [lookupSolved, List.find?]
    · have hne : q.1 ≠ s := by
        intro hcontra
        have : s ∈ rest.map Prod.fst := by
          have : (s, a).1 ∈ rest.map Prod.fst := List.mem_map_of_mem Prod.fst hq
          simpa using this
        rw [← hcontra] at this
        exact (List.nodup_cons.mp hnd).1 this
      have := ih (List.nodup_cons.mp hnd).2 hq
      simpa [lookupSolved, List.find?, hne] using this

/-- A nonempty `lookupSolved` result names a member record. -/
theorem lookupSolved_mem (solved : List (String × Assignments)) (k : String)
    (p : String × Tristate) (hp : p ∈ lookupSolved solved k) :
    ∃ a, (k, a) ∈ solved ∧ p ∈ a := by
  unfold lookupSolved at hp
  cases hf : solved.find? (fun q => q.1 = k) with
  | none => rw [hf] at hp; cases hp
  | some q =>
    rw [hf] at hp
    have hpred := List.find?_some hf
    have hmem := List.mem_of_find?_eq_some hf
    have hk : q.1 = k := by simpa using hpred
    refine ⟨q.2, ?_, hp⟩
    rw [← hk]
    exact hmem

/-- Transport a solved record to its aligned dependency record. -/
theorem solved_recordOK (st : Schema) :
    ∀ (origDeps : List (String × List String)) (solved : List (String × Assignments)),
      List.Forall₂ (RecordOK st) origDeps solved →
      (solved.map Prod.fst).Nodup →
      ∀ s a, (s, a) ∈ solved → RecordOK st (s, entryDeps origDeps s) (s, a) := by
  intro origDeps solved hf
  induction hf with
  | nil => intro _ s a hmem; cases hmem
  | cons hok htail ih =>
    rename_i dp sp dl sl
    intro hnd s a hmem
    rcases List.mem_cons.mp hmem with hq | hq
    · have h1 : dp.1 = s := by rw [hok.1, ← hq]
      have hed : entryDeps (dp :: dl) s = dp.2 := by
        simp [entryDeps, List.find?, h1]
      rw [hed]
      have hs2 : sp.2 = a := by rw [← hq]
      refine ⟨rfl, ?_, ?_, ?_⟩
      · rw [← hs2]; exact hok.2.1
      · rw [← hs2]; exact hok.2.2.1
      · rw [← hs2]; exact hok.2.2.2
    · have hne : dp.1 ≠ s := by
        intro hcontra
        have hmemk : s ∈ sl.map Prod.fst := by
          have : (s, a).1 ∈ sl.map Prod.fst := List.mem_map_of_mem Prod.fst hq
          simpa using this
        rw [hok.1] at hcontra
        rw [← hcontra] at hmemk
        exact (List.nodup_cons.mp hnd).1 hmemk
      have hed : entryDeps (dp :: dl) s = entryDeps dl s := by
        simp [entryDeps, List.find?, hne]
      rw [hed]
      exact ih (List.nodup_cons.mp hnd).2 s a hq

/-- Transport a dependency record to its aligned solved record. -/
theorem deps_recordOK (st : Schema) :
    ∀ (origDeps : List (String × List String)) (solved : List (String × Assignments)),
      List.Forall₂ (RecordOK st) origDeps solved →
      (solved.map Prod.fst).Nodup →
      ∀ s ds, (s, ds) ∈ origDeps →
        ∃ a, (s, a) ∈ solved ∧ RecordOK st (s, entryDeps origDeps s) (s, a) := by
  intro origDeps solved hf hnd s ds hmem
  have hkeys : origDeps.map Prod.fst = solved.map Prod.fst := by
    clear hnd hmem
    induction hf with
    | nil => rfl
    | cons hok htail ih => simp [hok.1, ih]
  have hsk : s ∈ solved.map Prod.fst := by
    rw [← hkeys]
    have : (s, ds).1 ∈ origDeps.map Prod.fst := List.mem_map_of_mem Prod.fst hmem
    simpa using this
  obtain ⟨pr, hpr, hpr1⟩ := List.mem_map.mp hsk
  have hprs : (s, pr.2) ∈ solved := by
    have : (pr.1, pr.2) = pr := rfl
    rw [← hpr1, this]
    exact hpr
  exact ⟨pr.2, hprs, solved_recordOK st origDeps solved hf hnd s pr.2 hprs⟩

/-- Invariant of the queue walk: in recursive mode, every produced
dependency record is `RecordOK`-aligned with its solved record, and record
keys stay unique. -/
theorem phase1_invariant (st : Schema) (cfg : SolverConfig) (hrec : cfg.recursive = true) :
    ∀ fuel queue done ambs solved deps ambs2 solved2 deps2,
      phase1 st cfg fuel queue done ambs solved deps = some (.ok (ambs2, solved2, deps2)) →
      List.Forall₂ (RecordOK st) deps solved →
      (solved.map Prod.fst).Nodup →
      (∀ k ∈ solved.map Prod.fst, k ∈ done) →
      List.Forall₂ (RecordOK st) deps2 solved2 ∧ (solved2.map Prod.fst).Nodup := by
  intro fuel
  induction fuel with
  | zero =>
    intro queue done ambs solved deps a2 s2 d2 h
    simp only [phase1] at h
    exact absurd h (by simp)
  | succ n ih =>
    intro queue done ambs solved deps a2 s2 d2 h hf hnd hdone
    cases queue with
    | nil =>
      simp only [phase1, Option.some.injEq, Except.ok.injEq, Prod.mk.injEq] at h
      obtain ⟨h1, h2, h3⟩ := h
      rw [← h2, ← h3]
      exact ⟨hf, hnd⟩
    | cons sym rest =>
      simp only [phase1] at h
      by_cases hmem : sym ∈ done
      · rw [if_pos hmem] at h
        exact ih rest done ambs solved deps a2 s2 d2 h hf hnd hdone
      · rw [if_neg hmem] at h
        cases hidx : symbolIdx st sym with
        | none =>
          rw [hidx] at h
          exact absurd h (by simp)
        | some id =>
          rw [hidx] at h
          dsimp only at h
          cases hch : phase1Expr st sym id ambs with
          | none => rw [hch] at h; exact absurd h (by simp)
          | some pe =>
            obtain ⟨expr, ambs3⟩ := pe
            rw [hch] at h
            dsimp only at h
            cases hsol : solverSatisfy st expr cfg.desired_value with
            | none => rw [hsol] at h; exact absurd h (by simp)
            | some res =>
              rw [hsol] at h
              cases res with
              | error e =>
                dsimp only at h
                exact absurd h (by simp)
              | ok newA =>
                dsimp only at h
                cases hret : retainPromptable st newA with
                | none => rw [hret] at h; exact absurd h (by simp)
                | some kept =>
                  rw [hret] at h
                  dsimp only at h
                  rw [hrec, if_pos rfl] at h
                  have hkept := retainPromptable_spec st newA kept hret
                  have hrok : RecordOK st
                      (sym, (newA.filter (fun p => decide (p.2 ≠ Tristate.No))).map Prod.fst)
                      (sym, kept) := by
                    refine ⟨rfl, ?_, ?_, ?_⟩
                    · intro p hp
                      rw [hkept] at hp
                      exact (List.mem_filter.mp hp).2
                    · intro p hp hpn
                      rw [hkept] at hp
                      refine List.mem_map.mpr ⟨p, ?_, rfl⟩
                      exact List.mem_filter.mpr ⟨(List.mem_filter.mp hp).1, by simpa using hpn⟩
                    · intro k hk hkp
                      obtain ⟨p, hp, hp1⟩ := List.mem_map.mp hk
                      have hpA := (List.mem_filter.mp hp).1
                      refine ⟨p.2, ?_⟩
                      have : p ∈ kept := by
                        rw [hkept]
                        exact List.mem_filter.mpr ⟨hpA, by rw [hp1]; exact hkp⟩
                      rw [← hp1]
                      exact this
                  have hnd2 : ((solved ++ [(sym, kept)]).map Prod.fst).Nodup := by
                    rw [List.map_append]
                    rw [List.nodup_append]
                    refine ⟨hnd, by simp, ?_⟩
                    intro x hx
                    simp only [List.map_cons, List.map_nil, List.mem_singleton]
                    intro hxs
                    rw [hxs] at hx
                    exact hmem (hdone sym hx)
                  have hdone2 : ∀ k ∈ (solved ++ [(sym, kept)]).map Prod.fst, k ∈ sym :: done := by
                    intro k hk
                    rw [List.map_append] at hk
                    rcases List.mem_append.mp hk with hk | hk
                    · exact List.mem_cons_of_mem sym (hdone k hk)
                    · simp only [List.map_cons, List.map_nil, List.mem_singleton] at hk
                      rw [hk]
                      exact List.mem_cons_self sym done
                  exact ih _ _ _ _ _ a2 s2 d2 h
                    (List.rel_append hf (List.Forall₂.cons hrok List.Forall₂.nil))
                    hnd2 hdone2

/-- A relation holding between all pairs drawn from a list is pairwise. -/
theorem pairwise_of_forall_mem {α : Type} {R : α → α → Prop} :
    ∀ (l : List α), (∀ a ∈ l, ∀ b ∈ l, R a b) → List.Pairwise R l := by
  intro l
  induction l with
  | nil => intro _; exact List.Pairwise.nil
  | cons x rest ih =>
    intro h
    refine List.Pairwise.cons ?_ (ih ?_)
    · intro b hb
      exact h x (List.mem_cons_self x rest) b (List.mem_cons_of_mem x hb)
    · intro a ha b hb
      exact h a (List.mem_cons_of_mem x ha) b (List.mem_cons_of_mem x hb)

/-- What draining one assignment map does: it returns an extension of the
accumulator by entries of the map whose keys were not yet assigned, and
afterwards every key of the map is assigned. -/
theorem emitEntries_spec :
    ∀ (l : Assignments) (already : List String) (acc : List (String × Tristate)),
      ∃ delta al2, emitEntries already acc l = (al2, acc ++ delta) ∧
        (∀ k ∈ already, k ∈ al2) ∧
        (∀ p ∈ l, p.1 ∈ al2) ∧
        (∀ e ∈ delta, e ∈ l ∧ e.1 ∉ already) := by
  intro l
  induction l with
  | nil =>
    intro already acc
    exact ⟨[], already, by simp [emitEntries], fun k hk => hk, by simp, by simp⟩
  | cons e rest ih =>
    intro already acc
    by_cases he : e.1 ∈ already
    · obtain ⟨delta, al2, heq, hmono, hkeys, hdelta⟩ := ih already acc
      refine ⟨delta, al2, ?_, hmono, ?_, ?_⟩
      · rw [emitEntries, if_pos he]
        exact heq
      · intro p hp
        rcases List.mem_cons.mp hp with hpe | hpe
        · rw [hpe]; exact hmono e.1 he
        · exact hkeys p hpe
      · intro d hd
        exact ⟨List.mem_cons_of_mem e (hdelta d hd).1, (hdelta d hd).2⟩
    · obtain ⟨delta, al2, heq, hmono, hkeys, hdelta⟩ := ih (e.1 :: already) (acc ++ [e])
      refine ⟨e :: delta, al2, ?_, ?_, ?_, ?_⟩
      · rw [emitEntries, if_neg he, heq]
        simp
      · intro k hk
        exact hmono k (List.mem_cons_of_mem e.1 hk)
      · intro p hp
        rcases List.mem_cons.mp hp with hpe | hpe
        · rw [hpe]; exact hmono e.1 (List.mem_cons_self e.1 already)
        · exact hkeys p hpe
      · intro d hd
        rcases List.mem_cons.mp hd with hde | hde
        · rw [hde]; exact ⟨List.mem_cons_self e rest, he⟩
        · refine ⟨List.mem_cons_of_mem e (hdelta d hde).1, ?_⟩
          intro hcontra
          exact (hdelta d hde).2 (List.mem_cons_of_mem e.1 hcontra)

/-- What one emission round does: drain the maps of the ordered symbols,
appending their not-yet-assigned entries, after which every key of every
drained map is assigned. -/
theorem emitRound_spec (solved : List (String × Assignments)) :
    ∀ (order : List String) (already : List String) (acc : List (String × Tristate)),
      ∃ delta al2, emitRound solved order already acc = (al2, acc ++ delta) ∧
        (∀ k ∈ already, k ∈ al2) ∧
        (∀ fs ∈ order, ∀ p ∈ lookupSolved solved fs, p.1 ∈ al2) ∧
        (∀ e ∈ delta, (∃ fs ∈ order, e ∈ lookupSolved solved fs) ∧ e.1 ∉ already) := by
  intro order
  induction order with
  | nil =>
    intro already acc
    exact ⟨[], already, by simp [emitRound], fun k hk => hk, by simp, by simp⟩
  | cons fs rest ih =>
    intro already acc
    obtain ⟨d1, al1, he1, hmono1, hkeys1, hd1⟩ := emitEntries_spec (lookupSolved solved fs) already acc
    obtain ⟨d2, al2, he2, hmono2, hkeys2, hd2⟩ := ih al1 (acc ++ d1)
    refine ⟨d1 ++ d2, al2, ?_, ?_, ?_, ?_⟩
    · rw [emitRound, he1]
      dsimp only
      rw [he2, List.append_assoc]
    · intro k hk
      exact hmono2 k (hmono1 k hk)
    · intro g hg p hp
      rcases List.mem_cons.mp hg with hgf | hgf
      · rw [hgf] at hp
        exact hmono2 p.1 (hkeys1 p hp)
      · exact hkeys2 g hgf p hp
    · intro e he
      rcases List.mem_append.mp he with hed | hed
      · exact ⟨⟨fs, List.mem_cons_self fs rest, (hd1 e hed).1⟩, (hd1 e hed).2⟩
      · obtain ⟨⟨g, hg, hgm⟩, hna⟩ := hd2 e hed
        refine ⟨⟨g, List.mem_cons_of_mem fs hg, hgm⟩, ?_⟩
        intro hcontra
        exact hna (hmono1 e.1 hcontra)

/-- Aligned records carry the same keys. -/
theorem forall₂_keys (st : Schema) (origDeps : List (String × List String))
    (solved : List (String × Assignments))
    (hf : List.Forall₂ (RecordOK st) origDeps solved) :
    origDeps.map Prod.fst = solved.map Prod.fst := by
  induction hf with
  | nil => rfl
  | cons hok htail ih => simp [hok.1, ih]

/-- Splitting a membership filter over an appended exclusion list. -/
theorem filter_contains_append (ds F G : List String) :
    (ds.filter (fun k => ¬ F.contains k)).filter (fun k => ¬ G.contains k) =
      ds.filter (fun k => ¬ (F ++ G).contains k) := by
  rw [List.filter_filter]
  apply List.filter_congr
  intro k hk
  by_cases h1 : k ∈ F <;> by_cases h2 : k ∈ G <;> simp [h1, h2]

/-- The stratification invariant of the emission loop: whenever the
remaining dependency lists are the recorded ones filtered by the fulfilled
set `F`, all drained keys are assigned, and every promptable recorded
dependency of a non-`No` emitted entry is already assigned, the final output
is pairwise ordered by `TopoRel`. -/
theorem phase2_good (st : Schema) (origDeps : List (String × List String))
    (solved : List (String × Assignments))
    (hf : List.Forall₂ (RecordOK st) origDeps solved)
    (hnd : (solved.map Prod.fst).Nodup)
    (pick : List String → List String) (hpick : ∀ l, (pick l).Perm l) :
    ∀ (fuel : Nat) (deps : List (String × List String)) (already : List String)
      (acc : List (String × Tristate)) (F : List String) (out : List (String × Tristate)),
      phase2 solved pick fuel deps already acc = some out →
      (∀ p ∈ deps, ∃ ds, (p.1, ds) ∈ origDeps ∧ p.2 = ds.filter (fun k => ¬ F.contains k)) →
      (∀ s ∈ F, ∀ p ∈ lookupSolved solved s, p.1 ∈ already) →
      (∀ e ∈ acc, e.2 ≠ Tristate.No →
        ∀ k, k ∈ entryDeps origDeps e.1 → promptableB st k = true → k ∈ already) →
      List.Pairwise (TopoRel origDeps) acc →
      List.Pairwise (TopoRel origDeps) out := by
  have hndd : (origDeps.map Prod.fst).Nodup := by
    rw [forall₂_keys st origDeps solved hf]
    exact hnd
  intro fuel
  induction fuel with
  | zero =>
    intro deps already acc F out h
    simp only [phase2] at h
    exact absurd h (by simp)
  | succ n ih =>
    intro deps already acc F out h hI1 hI2 hIX hIG
    simp only [phase2] at h
    by_cases hd : deps.isEmpty
    · rw [if_pos hd] at h
      rw [Option.some.injEq] at h
      rw [← h]
      exact hIG
    · rw [if_neg hd] at h
      set ful := deps.filter (fun p => p.2.isEmpty) with hful
      set names := ful.map (fun p => p.1) with hnames
      obtain ⟨delta, al2, heq, hmono, hdrained, hdelta⟩ :=
        emitRound_spec solved (pick names) already acc
      rw [heq] at h
      dsimp only at h
      -- every fulfilled symbol has a record whose dependencies lie in F
      have factA : ∀ fs ∈ names, ∃ ds, (fs, ds) ∈ origDeps ∧ ∀ k ∈ ds, k ∈ F := by
        intro fs hfs
        obtain ⟨pr, hpr, hpr1⟩ := List.mem_map.mp hfs
        have hprd := List.mem_filter.mp hpr
        obtain ⟨ds, hds, hfil⟩ := hI1 pr hprd.1
        have hempty : pr.2 = [] := List.isEmpty_iff.mp hprd.2
        refine ⟨ds, by rw [← hpr1]; exact hds, ?_⟩
        intro k hk
        have := List.filter_eq_nil_iff.mp (hempty ▸ hfil.symm) k hk
        simpa using this
      -- the crux: promptable recorded dependencies of non-`No` fresh entries
      -- were assigned in a strictly earlier round
      have hcrux : ∀ e ∈ delta, e.2 ≠ Tristate.No →
          ∀ k, k ∈ entryDeps origDeps e.1 → promptableB st k = true → k ∈ already := by
        intro e he hne k hk hkp
        obtain ⟨⟨fs, hfs, hem⟩, hna⟩ := hdelta e he
        have hfs2 : fs ∈ names := ((hpick names).mem_iff).mp hfs
        obtain ⟨a, hsa, hea⟩ := lookupSolved_mem solved fs e hem
        have hrokfs := solved_recordOK st origDeps solved hf hnd fs a hsa
        have he1 : e.1 ∈ entryDeps origDeps fs := hrokfs.2.2.1 e hea hne
        obtain ⟨ds, hds, hdsF⟩ := factA fs hfs2
        rw [entryDeps_of_mem origDeps hndd fs ds hds] at he1
        have he1F : e.1 ∈ F := hdsF e.1 he1
        -- e.1 has a dependency record because entryDeps is nonempty at it
        cases hfind : origDeps.find? (fun q => q.1 = e.1) with
        | none =>
          rw [entryDeps, hfind] at hk
          cases hk
        | some rec2 =>
          have hrmem := List.mem_of_find?_eq_some hfind
          have hr1 : rec2.1 = e.1 := by simpa using List.find?_some hfind
          have hrm2 : (e.1, rec2.2) ∈ origDeps := by
            have : (rec2.1, rec2.2) = rec2 := rfl
            rw [← hr1, this]
            exact hrmem
          obtain ⟨a1, hsa1, hrok1⟩ := deps_recordOK st origDeps solved hf hnd e.1 rec2.2 hrm2
          obtain ⟨v, hv⟩ := hrok1.2.2.2 k hk hkp
          have hlook : lookupSolved solved e.1 = a1 := lookupSolved_of_mem solved hnd e.1 a1 hsa1
          have := hI2 e.1 he1F (k, v) (by rw [hlook]; exact hv)
          exact this
      -- fresh entries come from solved maps, hence are promptable
      have hdeltaP : ∀ e ∈ delta, promptableB st e.1 = true := by
        intro e he
        obtain ⟨⟨fs, hfs, hem⟩, _⟩ := hdelta e he
        obtain ⟨a, hsa, hea⟩ := lookupSolved_mem solved fs e hem
        exact (solved_recordOK st origDeps solved hf hnd fs a hsa).2.1 e hea
      refine ih _ _ _ (F ++ names) out h ?_ ?_ ?_ ?_
      · -- I1 at the larger fulfilled set
        intro p hp
        obtain ⟨q, hq, hpq⟩ := List.mem_map.mp hp
        have hqd := (List.mem_filter.mp hq).1
        obtain ⟨ds, hds, hq2⟩ := hI1 q hqd
        refine ⟨ds, ?_, ?_⟩
        · rw [← hpq]
          exact hds
        · rw [← hpq]
          dsimp only
          rw [hq2, filter_contains_append]
      · -- I2: all keys of maps of fulfilled symbols are assigned
        intro s hs p hp
        rcases List.mem_append.mp hs with hsF | hsN
        · exact hmono p.1 (hI2 s hsF p hp)
        · exact hdrained s (((hpick names).mem_iff).mpr hsN) p hp
      · -- IX for the extended accumulator
        intro e he hne k hk hkp
        rcases List.mem_append.mp he with hea | hed
        · exact hmono k (hIX e hea hne k hk hkp)
        · exact hmono k (hcrux e hed hne k hk hkp)
      · -- the accumulated output stays pairwise ordered
        rw [List.pairwise_append]
        refine ⟨hIG, ?_, ?_⟩
        · refine pairwise_of_forall_mem delta ?_
          intro a ha b hb hane hbin
          have hbna := (hdelta b hb).2
          exact hbna (hcrux a ha hane b.1 hbin (hdeltaP b hb))
        · intro a ha b hb hane hbin
          have hbna := (hdelta b hb).2
          exact hbna (hIX a ha hane b.1 hbin (hdeltaP b hb))

/-- C5 amended: for every successful recursive satisfy call, under any
hash-map iteration order of the per-round fulfilled symbols, no emitted
entry with a non-`No` value depends (per the recorded dependency sets) on a
later entry.  `No`-valued entries may precede entries they depend on (see
the counterexample), and the within-round tie-break is the unspecified map
iteration order rather than insertion order. -/
theorem satisfy_topological_amended (fuel : Nat) (pick : List String → List String)
    (hpick : ∀ l, (pick l).Perm l) (st : Schema) (symbol : String) (cfg : SolverConfig)
    (hrec : cfg.recursive = true) (out : SatisfyOut)
    (hok : satisfyDebug fuel pick st symbol cfg = some (.ok out)) :
    List.Pairwise (TopoRel out.deps) out.assignments := by
  unfold satisfyDebug at hok
  cases hp1 : phase1 st cfg fuel [symbol] [] [] [] [] with
  | none => rw [hp1] at hok; cases hok
  | some r =>
    rw [hp1] at hok
    cases r with
    | error e => exact absurd hok (by simp)
    | ok tri =>
      obtain ⟨ambs, solved, deps⟩ := tri
      dsimp only at hok
      cases hm : mergeAll (solved.map (·.2)) with
      | error e => rw [hm] at hok; exact absurd hok (by simp)
      | ok merged =>
        rw [hm] at hok
        dsimp only at hok
        cases hp2 : phase2 solved pick fuel deps [] [] with
        | none => rw [hp2] at hok; cases hok
        | some assignments =>
          rw [hp2] at hok
          dsimp only at hok
          by_cases ha : ambs.isEmpty
          · rw [if_pos ha, Option.some.injEq, Except.ok.injEq] at hok
            have hinv := phase1_invariant st cfg hrec fuel [symbol] [] [] [] [] ambs solved
              deps hp1 List.Forall₂.nil (by simp) (by simp)
            have hgood := phase2_good st deps solved hinv.1 hinv.2 pick hpick fuel deps
              [] [] [] assignments hp2 ?_ ?_ ?_ ?_
            · rw [← hok]
              exact hgood
            · intro p hp
              refine ⟨p.2, ?_, by simp⟩
              rw [show (p.1, p.2) = p from rfl]
              exact hp
            · intro s hs
              exact absurd hs (List.not_mem_nil s)
            · intro e he
              exact absurd he (List.not_mem_nil e)
            · exact List.Pairwise.nil
          · rw [if_neg ha] at hok
            exact absurd hok (by simp)

/-- C5 witness: the amended topological guarantee at a concrete successful
recursive satisfy. -/
theorem satisfy_topological_amended_instance :
    List.Pairwise (TopoRel [("X", ["A", "B"]), ("A", []), ("B", [])])
      [("A", Tristate.Yes), ("B", Tristate.Yes)] :=
  satisfy_topological_amended 10 (fun l => l) (fun l => List.Perm.refl l) stC5w "X"
    ⟨.Yes, true⟩ rfl
    ⟨[("A", .Yes), ("B", .Yes)], [("X", ["A", "B"]), ("A", []), ("B", [])], []⟩ rfl

/-! C3 amended: repeating a fully-valid assignment is idempotent on the
symbol state, and the journal carries no reassignment warning for the pair.
The proof characterises the state a successful `set_value` produces and
shows the second application rewrites it to itself. -/

/-- Evaluation reads only the tristate, type, string payload and name of
each symbol (not the derived `visible`/`rev_dep_tri` fields that
`calc_value` rewrites). -/
def sameObs (st st2 : Schema) : Prop :=
  ∀ j, (symAt st2 j).tri = (symAt st j).tri ∧
       (symAt st2 j).symbol_type = (symAt st j).symbol_type ∧
       (symAt st2 j).str_value = (symAt st j).str_value ∧
       (symAt st2 j).name = (symAt st j).name

theorem getIntValue_congr (s s2 : Sym) (ht : s2.symbol_type = s.symbol_type)
    (hs : s2.str_value = s.str_value) : getIntValue s2 = getIntValue s := by
  unfold getIntValue
  rw [ht, hs]

theorem getIntE_congr (st st2 : Schema) (h : sameObs st st2) (i : Nat) :
    getIntE st2 i = getIntE st i := by
  unfold getIntE
  rw [getIntValue_congr (symAt st i) (symAt st2 i) (h i).2.1 (h i).2.2.1, (h i).2.2.2]

theorem evalTerminal_congr (st st2 : Schema) (h : sameObs st st2) (t : Terminal) :
    evalTerminal st2 t = evalTerminal st t := by
  have htri : ∀ a b, triCompat st2 a b = triCompat st a b := by
    intro a b
    unfold triCompat
    rw [(h a).2.1, (h b).2.1]
  have hint : ∀ a b, intCompat st2 a b = intCompat st a b := by
    intro a b
    unfold intCompat
    rw [(h a).2.1]
  have hcmp : ∀ t a b cT cI, evalCmp st2 t a b cT cI = evalCmp st t a b cT cI := by
    intro t a b cT cI
    unfold evalCmp
    rw [htri, hint, (h a).1, (h b).1, getIntE_congr st st2 h a, getIntE_congr st st2 h b]
  cases t <;> simp only [evalTerminal, hcmp]
  rw [(h _).1]

theorem evalO_congr (st st2 : Schema) (h : sameObs st st2) :
    ∀ e, evalO st2 e = evalO st e := by
  intro e
  induction e with
  | Const b => rfl
  | Terminal t => exact evalTerminal_congr st st2 h t
  | And a b iha ihb => simp only [evalO, iha, ihb]
  | Or a b iha ihb => simp only [evalO, iha, ihb]
  | Not a iha => simp only [evalO, iha]

theorem calcSym_congr (st st2 : Schema) (h : sameObs st st2) (s : Sym) :
    calcSym st2 s = calcSym st s := by
  unfold calcSym
  rw [evalO_congr st st2 h, evalO_congr st st2 h]

/-- Recalculating derived fields twice from the same observations is the
same as once. -/
theorem calcSym_idem (st : Schema) (s : Sym) : calcSym st (calcSym st s) = calcSym st s := by
  unfold calcSym
  cases hv : evalO st (s.vis_expr.getD (.Const true)) with
  | none =>
    cases hr : evalO st (s.rev_expr.getD (.Const false)) with
    | none => simp [hv, hr]
    | some rr => cases rr <;> simp [hv, hr]
  | some rv =>
    cases rv with
    | error e => cases hr : evalO st (s.rev_expr.getD (.Const false)) with
      | none => simp [hv, hr]
      | some rr => cases rr <;> simp [hv, hr]
    | ok t => cases hr : evalO st (s.rev_expr.getD (.Const false)) with
      | none => simp [hv, hr]
      | some rr => cases rr <;> simp [hv, hr]

theorem symAt_out_of_range (l : Schema) (j : Nat) (hj : ¬ j < l.length) :
    symAt l j = default := by
  unfold symAt
  rw [List.getD_eq_getElem?_getD, List.getElem?_eq_none (by omega), Option.getD_none]

theorem symAt_map (f : Sym → Sym) (l : Schema) (j : Nat) (hj : j < l.length) :
    symAt (l.map f) j = f (symAt l j) := by
  unfold symAt
  rw [List.getD_eq_getElem?_getD, List.getD_eq_getElem?_getD, List.getElem?_map,
    List.getElem?_eq_getElem hj]
  rfl

theorem symAt_set_eq (l : Schema) (i : Nat) (s : Sym) (hi : i < l.length) :
    symAt (l.set i s) i = s := by
  unfold symAt
  rw [List.getD_eq_getElem?_getD, List.getElem?_set_self (by omega)]
  rfl

theorem symAt_set_ne (l : Schema) (i : Nat) (s : Sym) (j : Nat) (hij : i ≠ j) :
    symAt (l.set i s) j = symAt l j := by
  unfold symAt
  rw [List.getD_eq_getElem?_getD, List.getD_eq_getElem?_getD, List.getElem?_set_ne hij]

/-- `recalc` sweeps leave the observed fields unchanged. -/
theorem sameObs_recalcAll (st : Schema) : sameObs st (recalcAllSymbols st) := by
  intro j
  by_cases hj : j < st.length
  · rw [recalcAllSymbols, symAt_map _ _ _ hj]
    by_cases hc : (symAt st j).is_const || (symAt st j).name.isNone <;> simp [hc, calcSym]
  · rw [symAt_out_of_range st j hj, symAt_out_of_range _ j (by simpa [recalcAllSymbols] using hj)]
    exact ⟨rfl, rfl, rfl, rfl⟩

theorem sameObs_recalcSymbol (st : Schema) (i : Nat) : sameObs st (recalcSymbol st i) := by
  intro j
  by_cases hij : i = j
  · subst hij
    by_cases hi : i < st.length
    · rw [recalcSymbol, setSym, symAt_set_eq st i _ hi]
      exact ⟨rfl, rfl, rfl, rfl⟩
    · rw [recalcSymbol, setSym, List.set_eq_of_length_le (by omega)]
      exact ⟨rfl, rfl, rfl, rfl⟩
  · rw [recalcSymbol, setSym, symAt_set_ne st i _ j hij]
    exact ⟨rfl, rfl, rfl, rfl⟩

theorem recalcAll_length (st : Schema) : (recalcAllSymbols st).length = st.length := by
  simp [recalcAllSymbols]

/-- A full sweep is idempotent. -/
theorem recalcAll_idem (st : Schema) :
    recalcAllSymbols (recalcAllSymbols st) = recalcAllSymbols st := by
  have key : ∀ s ∈ recalcAllSymbols st,
      (if (s.is_const || s.name.isNone) = true then s
       else calcSym (recalcAllSymbols st) s) = s := by
    intro s hs
    rw [recalcAllSymbols] at hs
    obtain ⟨s0, hs0, rfl⟩ := List.mem_map.mp hs
    by_cases hc : (s0.is_const || s0.name.isNone) = true
    · rw [if_pos hc, if_pos hc]
    · rw [if_neg hc]
      have hc3 : ((calcSym st s0).is_const || (calcSym st s0).name.isNone)
          = (s0.is_const || s0.name.isNone) := rfl
      rw [if_neg (by rw [hc3]; exact hc),
        calcSym_congr st (recalcAllSymbols st) (sameObs_recalcAll st), calcSym_idem]
  conv_lhs => rw [recalcAllSymbols]
  exact (List.map_congr_left (by intro a ha; exact key a ha)).trans
    (List.map_id (recalcAllSymbols st))

/-- Setting an index back to its own content is the identity. -/
theorem setSym_self (l : Schema) : ∀ i, setSym l i (symAt l i) = l := by
  induction l with
  | nil => intro i; rfl
  | cons x xs ih =>
    intro i
    cases i with
    | zero => rfl
    | succ n =>
      show x :: setSym xs n (symAt (x :: xs) (n + 1)) = x :: xs
      have : symAt (x :: xs) (n + 1) = symAt xs n := rfl
      rw [this, ih n]

/-- Writing the tristate a symbol already holds is the identity. -/
theorem writeTri_self (st : Schema) (i : Nat) (t : Tristate)
    (h : (symAt st i).tri = t) : writeTri st i t = st := by
  rw [writeTri, ← h]
  exact setSym_self st i

/-- Writing the string a symbol already holds is the identity. -/
theorem writeStr_self (st : Schema) (i : Nat) (s : String)
    (h : (symAt st i).str_value = s) : writeStr st i s = st := by
  rw [writeStr, ← h]
  exact setSym_self st i

/-- The bridge write a successful `set_value` performs, as a function of the
symbol's type and the requested value: a tristate write (`inl`) or a
canonical string write (`inr`).  `none` marks type/value combinations that
can never reach the write. -/
def writeTarget (ty : SymbolType) (v : SymbolValue) : Option (Tristate ⊕ String) :=
  match ty, v with
  | .Boolean, .Auto s => if s = "y" ∨ s = "n" then some (.inl (.ofBool (s = "y"))) else none
  | .Tristate, .Auto s => (Tristate.parse? s).map .inl
  | .Int, .Auto s => (parseRadixChars decDigit? 10 s.data).map (fun n => .inr (Nat.repr n))
  | .Hex, .Auto s =>
    match s.data with
    | c0 :: c1 :: rest =>
      if c0 = '0' ∧ c1 = 'x' then
        (parseRadixChars hexDigit? 16 rest).map (fun n => .inr (hexFormat n))
      else none
    | _ => none
  | .String, .Auto s => some (.inr s)
  | .Boolean, .Boolean b => some (.inl (.ofBool b))
  | .Tristate, .Boolean b => some (.inl (.ofBool b))
  | .Boolean, .Tristate t => if t = .Mod then none else some (.inl t)
  | .Tristate, .Tristate t => some (.inl t)
  | .Int, .Int n => some (.inr (Nat.repr n))
  | .Hex, .Hex n => some (.inr (hexFormat n))
  | .String, .String s => some (.inr s)
  | .Int, .Number n => some (.inr (Nat.repr n))
  | .Hex, .Number n => some (.inr (hexFormat n))
  | _, _ => none

/-- The schema a successful `set_value` leaves behind: the bridge write for
`writeTarget` followed by the closing recalculation sweep (the tristate path
additionally recalculates the target symbol before writing, as the
`set_tristate` closure does). -/
def setOutcome (st : Schema) (i : Nat) : Tristate ⊕ String → Schema
  | .inl t => recalcAllSymbols (writeTri (recalcSymbol st i) i t)
  | .inr s => recalcAllSymbols (writeStr st i s)

/-- Recalculating a single non-const named symbol right after a full sweep
changes nothing. -/
theorem recalcSymbol_recalcAll (W : Schema) (i : Nat) (hi : i < W.length)
    (hc : ((symAt W i).is_const || (symAt W i).name.isNone) = false) :
    recalcSymbol (recalcAllSymbols W) i = recalcAllSymbols W := by
  have hsym : symAt (recalcAllSymbols W) i = calcSym W (symAt W i) := by
    rw [recalcAllSymbols, symAt_map _ _ _ hi, if_neg (by simp [hc])]
  rw [recalcSymbol, calcSym_congr W (recalcAllSymbols W) (sameObs_recalcAll W), hsym,
    calcSym_idem, ← hsym]
  exact setSym_self (recalcAllSymbols W) i

theorem finishRecalc_success (o : Option (Schema × Option SymbolSetError)) (st1 : Schema)
    (h : finishRecalc o = some (st1, none)) :
    ∃ stI, o = some (stI, none) ∧ st1 = recalcAllSymbols stI := by
  cases o with
  | none => exact Option.noConfusion h
  | some p =>
    obtain ⟨stp, ep⟩ := p
    cases ep with
    | some e => simp [finishRecalc] at h
    | none =>
      simp only [finishRecalc, Option.some.injEq, Prod.mk.injEq] at h
      exact ⟨stp, rfl, h.1.symm⟩

/-- The `set_tristate` closure succeeds only through its final write, so the
state it returns is the pre-recalculated state with the value written. -/
theorem setTristateF_success (fuel : Nat) (st0 : Schema) (i : Nat) (value : Tristate)
    (stW : Schema) (h : setTristateF fuel st0 i value = some (stW, none)) :
    stW = writeTri (recalcSymbol st0 i) i value := by
  simp only [setTristateF] at h
  repeat' split at h
  all_goals simp_all

theorem setValueD_tri_of_tri (fuel d : Nat) (st : Schema) (i : Nat) (t : Tristate)
    (stM : Schema) (hc1 : ¬ (symAt st i).is_const = true) (hc2 : ¬ (symAt st i).is_choice = true)
    (hc3 : (symAt st i).prompt_count > 0)
    (hty : (symAt st i).symbol_type = SymbolType.Tristate)
    (h : setValueD fuel (d + 1) st i (.Tristate t) = some (stM, none)) :
    stM = recalcAllSymbols (writeTri (recalcSymbol st i) i t) := by
  rw [show setValueD fuel (d + 1) st i (.Tristate t)
      = setValueBody fuel (setValueD fuel d) st i (.Tristate t) from rfl] at h
  simp only [setValueBody] at h
  rw [if_neg hc1, if_neg hc2, if_neg (not_not_intro hc3), hty] at h
  dsimp only at h
  obtain ⟨stW, hW, h1⟩ := finishRecalc_success _ _ h
  rw [setTristateF_success fuel st i t stW hW] at h1
  exact h1

theorem setValueD_tri_of_bool (fuel d : Nat) (st : Schema) (i : Nat) (b : Bool)
    (stM : Schema) (hc1 : ¬ (symAt st i).is_const = true) (hc2 : ¬ (symAt st i).is_choice = true)
    (hc3 : (symAt st i).prompt_count > 0)
    (hty : (symAt st i).symbol_type = SymbolType.Tristate)
    (h : setValueD fuel (d + 1) st i (.Boolean b) = some (stM, none)) :
    stM = recalcAllSymbols (writeTri (recalcSymbol st i) i (Tristate.ofBool b)) := by
  rw [show setValueD fuel (d + 1) st i (.Boolean b)
      = setValueBody fuel (setValueD fuel d) st i (.Boolean b) from rfl] at h
  simp only [setValueBody] at h
  rw [if_neg hc1, if_neg hc2, if_neg (not_not_intro hc3), hty] at h
  dsimp only at h
  obtain ⟨stW, hW, h1⟩ := finishRecalc_success _ _ h
  rw [setTristateF_success fuel st i (Tristate.ofBool b) stW hW] at h1
  exact h1

theorem setValueD_bool_of_bool (fuel d : Nat) (st : Schema) (i : Nat) (b : Bool)
    (stM : Schema) (hc1 : ¬ (symAt st i).is_const = true) (hc2 : ¬ (symAt st i).is_choice = true)
    (hc3 : (symAt st i).prompt_count > 0)
    (hty : (symAt st i).symbol_type = SymbolType.Boolean)
    (h : setValueD fuel (d + 1) st i (.Boolean b) = some (stM, none)) :
    stM = recalcAllSymbols (writeTri (recalcSymbol st i) i (Tristate.ofBool b)) := by
  rw [show setValueD fuel (d + 1) st i (.Boolean b)
      = setValueBody fuel (setValueD fuel d) st i (.Boolean b) from rfl] at h
  simp only [setValueBody] at h
  rw [if_neg hc1, if_neg hc2, if_neg (not_not_intro hc3), hty] at h
  dsimp only at h
  obtain ⟨stW, hW, h1⟩ := finishRecalc_success _ _ h
  rw [setTristateF_success fuel st i (Tristate.ofBool b) stW hW] at h1
  exact h1

theorem setValueD_bool_of_tri (fuel d : Nat) (st : Schema) (i : Nat) (t : Tristate)
    (stM : Schema) (hc1 : ¬ (symAt st i).is_const = true) (hc2 : ¬ (symAt st i).is_choice = true)
    (hc3 : (symAt st i).prompt_count > 0)
    (hty : (symAt st i).symbol_type = SymbolType.Boolean)
    (h : setValueD fuel (d + 1) st i (.Tristate t) = some (stM, none)) :
    stM = recalcAllSymbols (writeTri (recalcSymbol st i) i t) := by
  rw [show setValueD fuel (d + 1) st i (.Tristate t)
      = setValueBody fuel (setValueD fuel d) st i (.Tristate t) from rfl] at h
  simp only [setValueBody] at h
  rw [if_neg hc1, if_neg hc2, if_neg (not_not_intro hc3), hty] at h
  dsimp only at h
  by_cases hm : t = Tristate.Mod
  · rw [if_neg (not_not_intro hm)] at h
    simp at h
  · rw [if_pos hm] at h
    obtain ⟨stW, hW, h1⟩ := finishRecalc_success _ _ h
    rw [setTristateF_success fuel st i t stW hW] at h1
    exact h1

theorem setValueD_int_of_int (fuel d : Nat) (st : Schema) (i : Nat) (n : Nat)
    (stM : Schema) (hc1 : ¬ (symAt st i).is_const = true) (hc2 : ¬ (symAt st i).is_choice = true)
    (hc3 : (symAt st i).prompt_count > 0)
    (hty : (symAt st i).symbol_type = SymbolType.Int)
    (h : setValueD fuel (d + 1) st i (.Int n) = some (stM, none)) :
    stM = recalcAllSymbols (writeStr st i (Nat.repr n)) := by
  rw [show setValueD fuel (d + 1) st i (.Int n)
      = setValueBody fuel (setValueD fuel d) st i (.Int n) from rfl] at h
  simp only [setValueBody] at h
  rw [if_neg hc1, if_neg hc2, if_neg (not_not_intro hc3), hty] at h
  dsimp only at h
  by_cases hr : ((symAt st i).int_min = 0 ∧ (symAt st i).int_max = 0) ∨
      ((symAt st i).int_min ≤ n ∧ n ≤ (symAt st i).int_max)
  · rw [if_pos hr] at h
    obtain ⟨stW, hW, h1⟩ := finishRecalc_success _ _ h
    simp at hW
    rw [← hW] at h1
    exact h1
  · rw [if_neg hr] at h
    simp at h

theorem setValueD_hex_of_hex (fuel d : Nat) (st : Schema) (i : Nat) (n : Nat)
    (stM : Schema) (hc1 : ¬ (symAt st i).is_const = true) (hc2 : ¬ (symAt st i).is_choice = true)
    (hc3 : (symAt st i).prompt_count > 0)
    (hty : (symAt st i).symbol_type = SymbolType.Hex)
    (h : setValueD fuel (d + 1) st i (.Hex n) = some (stM, none)) :
    stM = recalcAllSymbols (writeStr st i (hexFormat n)) := by
  rw [show setValueD fuel (d + 1) st i (.Hex n)
      = setValueBody fuel (setValueD fuel d) st i (.Hex n) from rfl] at h
  simp only [setValueBody] at h
  rw [if_neg hc1, if_neg hc2, if_neg (not_not_intro hc3), hty] at h
  dsimp only at h
  by_cases hr : ((symAt st i).int_min = 0 ∧ (symAt st i).int_max = 0) ∨
      ((symAt st i).int_min ≤ n ∧ n ≤ (symAt st i).int_max)
  · rw [if_pos hr] at h
    obtain ⟨stW, hW, h1⟩ := finishRecalc_success _ _ h
    simp at hW
    rw [← hW] at h1
    exact h1
  · rw [if_neg hr] at h
    simp at h

theorem setValueD_str_of_str (fuel d : Nat) (st : Schema) (i : Nat) (s : String)
    (stM : Schema) (hc1 : ¬ (symAt st i).is_const = true) (hc2 : ¬ (symAt st i).is_choice = true)
    (hc3 : (symAt st i).prompt_count > 0)
    (hty : (symAt st i).symbol_type = SymbolType.String)
    (h : setValueD fuel (d + 1) st i (.String s) = some (stM, none)) :
    stM = recalcAllSymbols (writeStr st i s) := by
  rw [show setValueD fuel (d + 1) st i (.String s)
      = setValueBody fuel (setValueD fuel d) st i (.String s) from rfl] at h
  simp only [setValueBody] at h
  rw [if_neg hc1, if_neg hc2, if_neg (not_not_intro hc3), hty] at h
  dsimp only at h
  by_cases hz : s.data.contains '\x00' = true
  · rw [if_pos hz] at h
    exact Option.noConfusion h
  · rw [if_neg hz] at h
    obtain ⟨stW, hW, h1⟩ := finishRecalc_success _ _ h
    simp at hW
    rw [← hW] at h1
    exact h1

/-- The static fields of a symbol that no bridge operation rewrites. -/
def staticAt (st : Schema) (i : Nat) : Option String × SymbolType × Bool :=
  ((symAt st i).name, (symAt st i).symbol_type, (symAt st i).is_const)

theorem staticAt_recalcSymbol (st : Schema) (i : Nat) (hi : i < st.length) :
    staticAt (recalcSymbol st i) i = staticAt st i := by
  unfold staticAt
  rw [recalcSymbol, setSym, symAt_set_eq st i _ hi]
  rfl

theorem staticAt_writeTri (X : Schema) (i : Nat) (t : Tristate) (hi : i < X.length) :
    staticAt (writeTri X i t) i = staticAt X i := by
  unfold staticAt
  rw [writeTri, setSym, symAt_set_eq X i _ hi]

theorem staticAt_writeStr (X : Schema) (i : Nat) (s : String) (hi : i < X.length) :
    staticAt (writeStr X i s) i = staticAt X i := by
  unfold staticAt
  rw [writeStr, setSym, symAt_set_eq X i _ hi]

theorem staticAt_recalcAll (W : Schema) (i : Nat) (hi : i < W.length) :
    staticAt (recalcAllSymbols W) i = staticAt W i := by
  unfold staticAt
  rw [recalcAllSymbols, symAt_map _ _ _ hi]
  by_cases hc : ((symAt W i).is_const || (symAt W i).name.isNone) = true
  · rw [if_pos hc]
  · rw [if_neg hc]
    rfl

theorem recalcSymbol_length (st : Schema) (i : Nat) : (recalcSymbol st i).length = st.length := by
  simp [recalcSymbol, setSym]

theorem writeTri_length (X : Schema) (i : Nat) (t : Tristate) :
    (writeTri X i t).length = X.length := by
  simp [writeTri, setSym]

theorem writeStr_length (X : Schema) (i : Nat) (s : String) :
    (writeStr X i s).length = X.length := by
  simp [writeStr, setSym]

theorem staticAt_setOutcome (st : Schema) (i : Nat) (w : Tristate ⊕ String)
    (hi : i < st.length) : staticAt (setOutcome st i w) i = staticAt st i := by
  cases w with
  | inl t =>
    calc staticAt (setOutcome st i (Sum.inl t)) i
        = staticAt (writeTri (recalcSymbol st i) i t) i :=
          staticAt_recalcAll _ i (by rw [writeTri_length, recalcSymbol_length]; exact hi)
      _ = staticAt (recalcSymbol st i) i :=
          staticAt_writeTri _ i t (by rw [recalcSymbol_length]; exact hi)
      _ = staticAt st i := staticAt_recalcSymbol st i hi
  | inr s =>
    calc staticAt (setOutcome st i (Sum.inr s)) i
        = staticAt (writeStr st i s) i :=
          staticAt_recalcAll _ i (by rw [writeStr_length]; exact hi)
      _ = staticAt st i := staticAt_writeStr st i s hi

/-- Repeating the same bridge write (with its surrounding recalculations) on
the state it produced changes nothing. -/
theorem setOutcome_idem (st : Schema) (i : Nat) (w : Tristate ⊕ String) (hi : i < st.length)
    (hnc : (symAt st i).is_const = false) (hnm : (symAt st i).name.isSome = true) :
    setOutcome (setOutcome st i w) i w = setOutcome st i w := by
  cases w with
  | inl t =>
    have hXat : symAt (recalcSymbol st i) i = calcSym st (symAt st i) := by
      rw [recalcSymbol, setSym]
      exact symAt_set_eq st i _ hi
    have hWat : symAt (writeTri (recalcSymbol st i) i t) i
        = { calcSym st (symAt st i) with tri := t } := by
      rw [writeTri, setSym, symAt_set_eq _ i _ (by rw [recalcSymbol_length]; exact hi), hXat]
    have hcond : ((symAt (writeTri (recalcSymbol st i) i t) i).is_const
        || (symAt (writeTri (recalcSymbol st i) i t) i).name.isNone) = false := by
      rw [hWat]
      show ((symAt st i).is_const || (symAt st i).name.isNone) = false
      rw [hnc]
      cases hx : (symAt st i).name with
      | none => exact absurd hnm (by simp [hx])
      | some nm => rfl
    have hstep1 : recalcSymbol (recalcAllSymbols (writeTri (recalcSymbol st i) i t)) i
        = recalcAllSymbols (writeTri (recalcSymbol st i) i t) :=
      recalcSymbol_recalcAll _ i (by rw [writeTri_length, recalcSymbol_length]; exact hi) hcond
    have htri : (symAt (recalcAllSymbols (writeTri (recalcSymbol st i) i t)) i).tri = t := by
      rw [(sameObs_recalcAll (writeTri (recalcSymbol st i) i t) i).1, hWat]
    have hstep2 : writeTri (recalcAllSymbols (writeTri (recalcSymbol st i) i t)) i t
        = recalcAllSymbols (writeTri (recalcSymbol st i) i t) :=
      writeTri_self _ i t htri
    show recalcAllSymbols
        (writeTri (recalcSymbol (recalcAllSymbols (writeTri (recalcSymbol st i) i t)) i) i t)
        = recalcAllSymbols (writeTri (recalcSymbol st i) i t)
    rw [hstep1, hstep2, recalcAll_idem]
  | inr s =>
    have hWat : symAt (writeStr st i s) i = { symAt st i with str_value := s } := by
      rw [writeStr, setSym]
      exact symAt_set_eq st i _ hi
    have hstr : (symAt (recalcAllSymbols (writeStr st i s)) i).str_value = s := by
      rw [(sameObs_recalcAll (writeStr st i s) i).2.2.1, hWat]
    have hstep : writeStr (recalcAllSymbols (writeStr st i s)) i s
        = recalcAllSymbols (writeStr st i s) := writeStr_self _ i s hstr
    show recalcAllSymbols (writeStr (recalcAllSymbols (writeStr st i s)) i s)
        = recalcAllSymbols (writeStr st i s)
    rw [hstep, recalcAll_idem]

/-- A successful `set_value` passes the pre-flight checks, the type/value
combination determines a unique bridge write, and the returned state is that
write followed by the closing recalculation sweep (the re-submitting
`Auto`/`Number` arms sweep twice, which collapses by idempotence). -/
theorem setValue_shape (fuel : Nat) (st : Schema) (i : Nat) (v : SymbolValue) (st1 : Schema)
    (h : setValue fuel st i v = some (st1, none)) :
    (symAt st i).is_const = false ∧
      ∃ w, writeTarget (symAt st i).symbol_type v = some w ∧ st1 = setOutcome st i w := by
  have hbody : setValueBody fuel (setValueD fuel 2) st i v = some (st1, none) := h
  by_cases hc1 : (symAt st i).is_const = true
  · exfalso
    simp only [setValueBody] at hbody
    rw [if_pos hc1] at hbody
    simp at hbody
  · refine ⟨by simpa using hc1, ?_⟩
    by_cases hc2 : (symAt st i).is_choice = true
    · exfalso
      simp only [setValueBody] at hbody
      rw [if_neg hc1, if_pos hc2] at hbody
      simp at hbody
    · by_cases hc3 : (symAt st i).prompt_count > 0
      · cases v with
        | Auto s =>
          cases hty : (symAt st i).symbol_type with
          | Unknown =>
            exfalso
            simp only [setValueBody] at hbody
            rw [if_neg hc1, if_neg hc2, if_neg (not_not_intro hc3), hty] at hbody
            dsimp only at hbody
            simp at hbody
          | Boolean =>
            simp only [setValueBody] at hbody
            rw [if_neg hc1, if_neg hc2, if_neg (not_not_intro hc3), hty] at hbody
            dsimp only at hbody
            by_cases hyn : s = "y" ∨ s = "n"
            · rw [if_pos hyn] at hbody
              obtain ⟨stM, hM, h1⟩ := finishRecalc_success _ _ hbody
              have harm := setValueD_bool_of_bool fuel 1 st i _ stM hc1 hc2 hc3 hty hM
              refine ⟨.inl (Tristate.ofBool (s = "y")), ?_, ?_⟩
              · simp only [writeTarget]
                rw [if_pos hyn]
              · show st1 = recalcAllSymbols (writeTri (recalcSymbol st i) i
                  (Tristate.ofBool (s = "y")))
                rw [h1, harm, recalcAll_idem]
            · rw [if_neg hyn] at hbody
              simp at hbody
          | Tristate =>
            simp only [setValueBody] at hbody
            rw [if_neg hc1, if_neg hc2, if_neg (not_not_intro hc3), hty] at hbody
            dsimp only at hbody
            cases hp : Tristate.parse? s with
            | none =>
              rw [hp] at hbody
              dsimp only at hbody
              simp at hbody
            | some t =>
              rw [hp] at hbody
              dsimp only at hbody
              obtain ⟨stM, hM, h1⟩ := finishRecalc_success _ _ hbody
              have harm := setValueD_tri_of_tri fuel 1 st i t stM hc1 hc2 hc3 hty hM
              refine ⟨.inl t, ?_, ?_⟩
              · simp only [writeTarget]
                rw [hp]
                rfl
              · show st1 = recalcAllSymbols (writeTri (recalcSymbol st i) i t)
                rw [h1, harm, recalcAll_idem]
          | Int =>
            simp only [setValueBody] at hbody
            rw [if_neg hc1, if_neg hc2, if_neg (not_not_intro hc3), hty] at hbody
            dsimp only at hbody
            cases hp : parseRadixChars decDigit? 10 s.data with
            | none =>
              rw [hp] at hbody
              dsimp only at hbody
              simp at hbody
            | some n =>
              rw [hp] at hbody
              dsimp only at hbody
              obtain ⟨stM, hM, h1⟩ := finishRecalc_success _ _ hbody
              have harm := setValueD_int_of_int fuel 1 st i n stM hc1 hc2 hc3 hty hM
              refine ⟨.inr (Nat.repr n), ?_, ?_⟩
              · simp only [writeTarget]
                rw [hp]
                rfl
              · show st1 = recalcAllSymbols (writeStr st i (Nat.repr n))
                rw [h1, harm, recalcAll_idem]
          | Hex =>
            simp only [setValueBody] at hbody
            rw [if_neg hc1, if_neg hc2, if_neg (not_not_intro hc3), hty] at hbody
            dsimp only at hbody
            cases hd : s.data with
            | nil =>
              rw [hd] at hbody
              dsimp only at hbody
              exact Option.noConfusion hbody
            | cons c0 tl =>
              rw [hd] at hbody
              cases htl : tl with
              | nil =>
                rw [htl] at hbody
                dsimp only at hbody
                exact Option.noConfusion hbody
              | cons c1 rest =>
                rw [htl] at hbody
                dsimp only at hbody
                by_cases h0x : c0 = '0' ∧ c1 = 'x'
                · rw [if_pos h0x] at hbody
                  cases hp : parseRadixChars hexDigit? 16 rest with
                  | none =>
                    rw [hp] at hbody
                    dsimp only at hbody
                    simp at hbody
                  | some n =>
                    rw [hp] at hbody
                    dsimp only at hbody
                    obtain ⟨stM, hM, h1⟩ := finishRecalc_success _ _ hbody
                    have harm := setValueD_hex_of_hex fuel 1 st i n stM hc1 hc2 hc3 hty hM
                    refine ⟨.inr (hexFormat n), ?_, ?_⟩
                    · simp only [writeTarget]
                      rw [hd, htl]
                      dsimp only
                      rw [if_pos h0x, hp]
                      rfl
                    · show st1 = recalcAllSymbols (writeStr st i (hexFormat n))
                      rw [h1, harm, recalcAll_idem]
                · rw [if_neg h0x] at hbody
                  simp at hbody
          | String =>
            simp only [setValueBody] at hbody
            rw [if_neg hc1, if_neg hc2, if_neg (not_not_intro hc3), hty] at hbody
            dsimp only at hbody
            obtain ⟨stM, hM, h1⟩ := finishRecalc_success _ _ hbody
            have harm := setValueD_str_of_str fuel 1 st i s stM hc1 hc2 hc3 hty hM
            refine ⟨.inr s, by simp only [hty, writeTarget], ?_⟩
            show st1 = recalcAllSymbols (writeStr st i s)
            rw [h1, harm, recalcAll_idem]
        | Boolean b =>
          cases hty : (symAt st i).symbol_type with
          | Boolean =>
            exact ⟨.inl (Tristate.ofBool b), by simp only [hty, writeTarget],
              setValueD_bool_of_bool fuel 2 st i b st1 hc1 hc2 hc3 hty hbody⟩
          | Tristate =>
            exact ⟨.inl (Tristate.ofBool b), by simp only [hty, writeTarget],
              setValueD_tri_of_bool fuel 2 st i b st1 hc1 hc2 hc3 hty hbody⟩
          | Unknown =>
            exfalso
            simp only [setValueBody] at hbody
            rw [if_neg hc1, if_neg hc2, if_neg (not_not_intro hc3), hty] at hbody
            dsimp only at hbody
            simp at hbody
          | Int =>
            exfalso
            simp only [setValueBody] at hbody
            rw [if_neg hc1, if_neg hc2, if_neg (not_not_intro hc3), hty] at hbody
            dsimp only at hbody
            simp at hbody
          | Hex =>
            exfalso
            simp only [setValueBody] at hbody
            rw [if_neg hc1, if_neg hc2, if_neg (not_not_intro hc3), hty] at hbody
            dsimp only at hbody
            simp at hbody
          | String =>
            exfalso
            simp only [setValueBody] at hbody
            rw [if_neg hc1, if_neg hc2, if_neg (not_not_intro hc3), hty] at hbody
            dsimp only at hbody
            simp at hbody
        | Tristate t =>
          cases hty : (symAt st i).symbol_type with
          | Tristate =>
            exact ⟨.inl t, by simp only [hty, writeTarget],
              setValueD_tri_of_tri fuel 2 st i t st1 hc1 hc2 hc3 hty hbody⟩
          | Boolean =>
            by_cases hm : t = Tristate.Mod
            · exfalso
              simp only [setValueBody] at hbody
              rw [if_neg hc1, if_neg hc2, if_neg (not_not_intro hc3), hty] at hbody
              dsimp only at hbody
              rw [if_neg (not_not_intro hm)] at hbody
              simp at hbody
            · refine ⟨.inl t, ?_,
                setValueD_bool_of_tri fuel 2 st i t st1 hc1 hc2 hc3 hty hbody⟩
              simp only [writeTarget]
              rw [if_neg hm]
          | Unknown =>
            exfalso
            simp only [setValueBody] at hbody
            rw [if_neg hc1, if_neg hc2, if_neg (not_not_intro hc3), hty] at hbody
            dsimp only at hbody
            simp at hbody
          | Int =>
            exfalso
            simp only [setValueBody] at hbody
            rw [if_neg hc1, if_neg hc2, if_neg (not_not_intro hc3), hty] at hbody
            dsimp only at hbody
            simp at hbody
          | Hex =>
            exfalso
            simp only [setValueBody] at hbody
            rw [if_neg hc1, if_neg hc2, if_neg (not_not_intro hc3), hty] at hbody
            dsimp only at hbody
            simp at hbody
          | String =>
            exfalso
            simp only [setValueBody] at hbody
            rw [if_neg hc1, if_neg hc2, if_neg (not_not_intro hc3), hty] at hbody
            dsimp only at hbody
            simp at hbody
        | Int n =>
          cases hty : (symAt st i).symbol_type with
          | Int =>
            exact ⟨.inr (Nat.repr n), by simp only [hty, writeTarget],
              setValueD_int_of_int fuel 2 st i n st1 hc1 hc2 hc3 hty hbody⟩
          | Unknown =>
            exfalso
            simp only [setValueBody] at hbody
            rw [if_neg hc1, if_neg hc2, if_neg (not_not_intro hc3), hty] at hbody
            dsimp only at hbody
            simp at hbody
          | Boolean =>
            exfalso
            simp only [setValueBody] at hbody
            rw [if_neg hc1, if_neg hc2, if_neg (not_not_intro hc3), hty] at hbody
            dsimp only at hbody
            simp at hbody
          | Tristate =>
            exfalso
            simp only [setValueBody] at hbody
            rw [if_neg hc1, if_neg hc2, if_neg (not_not_intro hc3), hty] at hbody
            dsimp only at hbody
            simp at hbody
          | Hex =>
            exfalso
            simp only [setValueBody] at hbody
            rw [if_neg hc1, if_neg hc2, if_neg (not_not_intro hc3), hty] at hbody
            dsimp only at hbody
            simp at hbody
          | String =>
            exfalso
            simp only [setValueBody] at hbody
            rw [if_neg hc1, if_neg hc2, if_neg (not_not_intro hc3), hty] at hbody
            dsimp only at hbody
            simp at hbody
        | Hex n =>
          cases hty : (symAt st i).symbol_type with
          | Hex =>
            exact ⟨.inr (hexFormat n), by simp only [hty, writeTarget],
              setValueD_hex_of_hex fuel 2 st i n st1 hc1 hc2 hc3 hty hbody⟩
          | Unknown =>
            exfalso
            simp only [setValueBody] at hbody
            rw [if_neg hc1, if_neg hc2, if_neg (not_not_intro hc3), hty] at hbody
            dsimp only at hbody
            simp at hbody
          | Boolean =>
            exfalso
            simp only [setValueBody] at hbody
            rw [if_neg hc1, if_neg hc2, if_neg (not_not_intro hc3), hty] at hbody
            dsimp only at hbody
            simp at hbody
          | Tristate =>
            exfalso
            simp only [setValueBody] at hbody
            rw [if_neg hc1, if_neg hc2, if_neg (not_not_intro hc3), hty] at hbody
            dsimp only at hbody
            simp at hbody
          | Int =>
            exfalso
            simp only [setValueBody] at hbody
            rw [if_neg hc1, if_neg hc2, if_neg (not_not_intro hc3), hty] at hbody
            dsimp only at hbody
            simp at hbody
          | String =>
            exfalso
            simp only [setValueBody] at hbody
            rw [if_neg hc1, if_neg hc2, if_neg (not_not_intro hc3), hty] at hbody
            dsimp only at hbody
            simp at hbody
        | String s =>
          cases hty : (symAt st i).symbol_type with
          | String =>
            exact ⟨.inr s, by simp only [hty, writeTarget],
              setValueD_str_of_str fuel 2 st i s st1 hc1 hc2 hc3 hty hbody⟩
          | Unknown =>
            exfalso
            simp only [setValueBody] at hbody
            rw [if_neg hc1, if_neg hc2, if_neg (not_not_intro hc3), hty] at hbody
            dsimp only at hbody
            simp at hbody
          | Boolean =>
            exfalso
            simp only [setValueBody] at hbody
            rw [if_neg hc1, if_neg hc2, if_neg (not_not_intro hc3), hty] at hbody
            dsimp only at hbody
            simp at hbody
          | Tristate =>
            exfalso
            simp only [setValueBody] at hbody
            rw [if_neg hc1, if_neg hc2, if_neg (not_not_intro hc3), hty] at hbody
            dsimp only at hbody
            simp at hbody
          | Int =>
            exfalso
            simp only [setValueBody] at hbody
            rw [if_neg hc1, if_neg hc2, if_neg (not_not_intro hc3), hty] at hbody
            dsimp only at hbody
            simp at hbody
          | Hex =>
            exfalso
            simp only [setValueBody] at hbody
            rw [if_neg hc1, if_neg hc2, if_neg (not_not_intro hc3), hty] at hbody
            dsimp only at hbody
            simp at hbody
        | Number n =>
          cases hty : (symAt st i).symbol_type with
          | Int =>
            simp only [setValueBody] at hbody
            rw [if_neg hc1, if_neg hc2, if_neg (not_not_intro hc3), hty] at hbody
            dsimp only at hbody
            have harm := setValueD_int_of_int fuel 1 st i n st1 hc1 hc2 hc3 hty hbody
            exact ⟨.inr (Nat.repr n), by simp only [hty, writeTarget], harm⟩
          | Hex =>
            simp only [setValueBody] at hbody
            rw [if_neg hc1, if_neg hc2, if_neg (not_not_intro hc3), hty] at hbody
            dsimp only at hbody
            have harm := setValueD_hex_of_hex fuel 1 st i n st1 hc1 hc2 hc3 hty hbody
            exact ⟨.inr (hexFormat n), by simp only [hty, writeTarget], harm⟩
          | Unknown =>
            exfalso
            simp only [setValueBody] at hbody
            rw [if_neg hc1, if_neg hc2, if_neg (not_not_intro hc3), hty] at hbody
            dsimp only at hbody
            simp at hbody
          | Boolean =>
            exfalso
            simp only [setValueBody] at hbody
            rw [if_neg hc1, if_neg hc2, if_neg (not_not_intro hc3), hty] at hbody
            dsimp only at hbody
            simp at hbody
          | Tristate =>
            exfalso
            simp only [setValueBody] at hbody
            rw [if_neg hc1, if_neg hc2, if_neg (not_not_intro hc3), hty] at hbody
            dsimp only at hbody
            simp at hbody
          | String =>
            exfalso
            simp only [setValueBody] at hbody
            rw [if_neg hc1, if_neg hc2, if_neg (not_not_intro hc3), hty] at hbody
            dsimp only at hbody
            simp at hbody
      · exfalso
        simp only [setValueBody] at hbody
        rw [if_neg hc1, if_neg hc2, if_pos hc3] at hbody
        simp at hbody

/-- C3 (amended): applying the same fully-valid assignment twice through
`set_value_tracked` yields the same final symbol state as applying it once,
and journal validation emits zero reassignment warnings for the pair — not
one, as the warning additionally requires the recorded value to have changed
between the two transactions, which a repeat of the same assignment never
does. -/
theorem repeat_assignment_idempotent (fuel : Nat) (st : KState) (i : Nat) (v : SymbolValue)
    (f1 f2 : String) (l1 l2 : Nat) (tb1 tb2 : Option String) (st1 st2 : KState)
    (hh : st.history = []) (hi : i < st.syms.length)
    (h1 : setValueTracked fuel st i v f1 l1 tb1 = some (st1, none))
    (h2 : setValueTracked fuel st1 i v f2 l2 tb2 = some (st2, none)) :
    st2.syms = st1.syms ∧ countReassignmentWarnings st2.history = 0 := by
  simp only [setValueTracked] at h1 h2
  cases hgv1 : getValue st.syms i with
  | none =>
    rw [hgv1] at h1
    exact Option.noConfusion h1
  | some r1 =>
    cases r1 with
    | error e1 =>
      rw [hgv1] at h1
      exact Option.noConfusion h1
    | ok before1 =>
      rw [hgv1] at h1
      dsimp only at h1
      cases hsv1 : setValue fuel st.syms i v with
      | none =>
        rw [hsv1] at h1
        exact Option.noConfusion h1
      | some p1 =>
        obtain ⟨syms1, err1⟩ := p1
        rw [hsv1] at h1
        dsimp only at h1
        cases hnm1 : (symAt syms1 i).name with
        | none =>
          rw [hnm1] at h1
          exact Option.noConfusion h1
        | some nm1 =>
          rw [hnm1] at h1
          dsimp only at h1
          cases hga1 : getValue syms1 i with
          | none =>
            rw [hga1] at h1
            exact Option.noConfusion h1
          | some r1a =>
            cases r1a with
            | error e1a =>
              rw [hga1] at h1
              exact Option.noConfusion h1
            | ok after1 =>
              rw [hga1] at h1
              dsimp only at h1
              rw [Option.some.injEq, Prod.mk.injEq] at h1
              obtain ⟨hst1, herr1⟩ := h1
              subst herr1
              subst hst1
              dsimp only at h2
              rw [hga1] at h2
              dsimp only at h2
              cases hsv2 : setValue fuel syms1 i v with
              | none =>
                rw [hsv2] at h2
                exact Option.noConfusion h2
              | some p2 =>
                obtain ⟨syms2, err2⟩ := p2
                rw [hsv2] at h2
                dsimp only at h2
                cases hnm2 : (symAt syms2 i).name with
                | none =>
                  rw [hnm2] at h2
                  exact Option.noConfusion h2
                | some nm2 =>
                  rw [hnm2] at h2
                  dsimp only at h2
                  cases hga2 : getValue syms2 i with
                  | none =>
                    rw [hga2] at h2
                    exact Option.noConfusion h2
                  | some r2a =>
                    cases r2a with
                    | error e2a =>
                      rw [hga2] at h2
                      exact Option.noConfusion h2
                    | ok after2 =>
                      rw [hga2] at h2
                      dsimp only at h2
                      rw [Option.some.injEq, Prod.mk.injEq] at h2
                      obtain ⟨hst2, herr2⟩ := h2
                      subst herr2
                      subst hst2
                      obtain ⟨hnc, w, hwt, hNF⟩ := setValue_shape fuel st.syms i v syms1 hsv1
                      obtain ⟨hnc2, w2, hwt2, hNF2⟩ := setValue_shape fuel syms1 i v syms2 hsv2
                      have hstat : staticAt syms1 i = staticAt st.syms i := by
                        rw [hNF]
                        exact staticAt_setOutcome st.syms i w hi
                      have htype : (symAt syms1 i).symbol_type
                          = (symAt st.syms i).symbol_type :=
                        congrArg (fun p => p.2.1) hstat
                      have hname : (symAt syms1 i).name = (symAt st.syms i).name :=
                        congrArg (fun p => p.1) hstat
                      have hnmS : (symAt st.syms i).name.isSome = true := by
                        rw [← hname, hnm1]
                        rfl
                      rw [htype, hwt] at hwt2
                      have hw : w2 = w := ((Option.some.injEq _ _).mp hwt2).symm
                      rw [hw] at hNF2
                      have hsymeq : syms2 = syms1 := by
                        rw [hNF2, hNF, setOutcome_idem st.syms i w hi hnc hnmS]
                      constructor
                      · exact hsymeq
                      · have hafter : after2 = after1 := by
                          rw [hsymeq, hga1] at hga2
                          simp at hga2
                          exact hga2.symm
                        subst hafter
                        show countReassignmentWarnings (st.history ++ _ ++ _) = 0
                        rw [hh]
                        simp [countReassignmentWarnings, countReassignmentWarningsAux,
                          reassignmentWarning]

/-- The state after one tracked assignment of `S := Yes` on the C3 schema. -/
def c3Once : KState :=
  ((setValueTracked 4 ⟨stC3, []⟩ 0 (.Tristate .Yes) "f" 1 none).getD (⟨[], []⟩, none)).1

/-- The state after repeating that same tracked assignment. -/
def c3Twice : KState :=
  ((setValueTracked 4 c3Once 0 (.Tristate .Yes) "g" 2 none).getD (⟨[], []⟩, none)).1

/-- Witness for the amended C3 theorem at a concrete schema: both tracked
assignments succeed and the theorem's hypotheses hold. -/
theorem repeat_assignment_idempotent_witness :
    c3Twice.syms = c3Once.syms ∧ countReassignmentWarnings c3Twice.history = 0 :=
  repeat_assignment_idempotent 4 ⟨stC3, []⟩ 0 (.Tristate .Yes) "f" "g" 1 2 none none
    c3Once c3Twice rfl (by decide) (by decide) (by decide)

end Autokernel
